import Mathlib

/-!
Verification of the tabular cleaning-and-filtering pipeline of the
Text-Blast-Filter repository (src/processing.py and src/app.py).

The pipeline operates on pandas DataFrames read with header=None and
dtype=str.  We embed a DataFrame as a column-major list of
(label, cell-list) pairs, matching pandas' column-oriented storage.  A cell
is either missing (pandas NaN, written `CVal.na`), a string (`CVal.s`), or
a number (`CVal.n`, produced only by pd.to_numeric in the distance step).
Numbers are exact decimals `Dec` (an integer numerator over a power of
ten), which represent every literal pd.to_numeric can parse and make the
boundary comparison of the distance filter exact; `Dec.val` gives the
rational value.

Python string primitives (strip, split, lower, startswith, the regex
substitutions) are modelled by structural functions over character lists so
that every definition evaluates inside the kernel.

Column resolution in the source uses re.search with the IGNORECASE flag on
patterns built from literal words, the word-boundary assertion backslash-b
and the whitespace repetition backslash-s-star.  We embed exactly that
regex fragment (atoms: single character, whitespace star, word boundary,
dot-star) with a backtracking matcher; matching is case-insensitive by
lowercasing both sides, which for the ASCII pattern literals used here
agrees with IGNORECASE.
-/

/-- An exact decimal number: num / 10 ^ scale.  pd.to_numeric values are
modelled exactly (IEEE rounding is immaterial to the claims proved here). -/
structure Dec where
  num : ℤ
  scale : ℕ
deriving DecidableEq, Repr

/-- Rational value of an exact decimal. -/
def Dec.val (d : Dec) : ℚ := (d.num : ℚ) / (10 : ℚ) ^ d.scale

/-- Comparison of exact decimals by cross-multiplication. -/
def decLe (a b : Dec) : Bool :=
  decide (a.num * (10 : ℤ) ^ b.scale ≤ b.num * (10 : ℤ) ^ a.scale)

/-- A single spreadsheet cell: pandas NaN, a string, or a numeric value
produced by pd.to_numeric. -/
inductive CVal : Type
  | na : CVal
  | s (v : String) : CVal
  | n (v : Dec) : CVal
deriving DecidableEq, Repr

/-- Digit characters of a natural number, most significant first (fuel is
the first argument and always suffices since n halves each step). -/
def natDigitsAux : ℕ → ℕ → List Char → List Char
  | 0, _, acc => acc
  | fuel + 1, n, acc =>
    let d := Char.ofNat (48 + n % 10)
    if n < 10 then d :: acc else natDigitsAux fuel (n / 10) (d :: acc)

/-- Decimal rendering of a natural number. -/
def natDigits (n : ℕ) : List Char := natDigitsAux (n + 1) n []

/-- Python str() of a to_numeric value: integers (scale 0, as int64
columns) print without a point, fractional values with scale digits after
the point.  (Python float repr normalizes trailing zeros; that corner is
immaterial to the claims proved here.) -/
def decToStr (d : Dec) : String :=
  let mag := natDigits d.num.natAbs
  let digits := List.replicate (d.scale + 1 - mag.length) '0' ++ mag
  let body :=
    if d.scale == 0 then digits
    else digits.take (digits.length - d.scale) ++ ('.' :: digits.drop (digits.length - d.scale))
  String.mk (if d.num < 0 then '-' :: body else body)

/-- Python str() of a cell as pandas astype(str) produces it: NaN becomes
the string "nan". -/
def cvalToStr : CVal → String
  | .na => "nan"
  | .s v => v
  | .n d => decToStr d

/-- pandas isna on a cell. -/
def isNa : CVal → Bool
  | .na => true
  | _ => false

/-- The failure kinds raised by the pipeline.  The source signals the first
three as ValueError with distinct messages; keyError and insertExists are
the pandas exceptions escaping from the name-splitting step (KeyError on a
zero-row apply result, ValueError "cannot insert ..., already exists"). -/
inductive PipeErr : Type
  | emptyInput : PipeErr
  | insufficientData : PipeErr
  | missingColumn (which : String) : PipeErr
  | keyError (col : String) : PipeErr
  | insertExists (col : String) : PipeErr
deriving DecidableEq, Repr

/-- Python str.strip(): drop leading and trailing whitespace. -/
def trimChars (l : List Char) : List Char :=
  ((l.dropWhile Char.isWhitespace).reverse.dropWhile Char.isWhitespace).reverse

/-- Python str.strip() on strings. -/
def pyStrip (str : String) : String := String.mk (trimChars str.toList)

/-- Python str.lower() (ASCII case mapping via Char.toLower). -/
def pyLower (str : String) : String := String.mk (str.toList.map Char.toLower)

/-- Python str.split() with no argument: whitespace-run-separated tokens,
no empty tokens.  cur accumulates the current token in reverse. -/
def wsTokensAux (cur : List Char) : List Char → List (List Char)
  | [] => if cur.isEmpty then [] else [cur.reverse]
  | c :: t =>
    if c.isWhitespace then
      if cur.isEmpty then wsTokensAux [] t else cur.reverse :: wsTokensAux [] t
    else wsTokensAux (c :: cur) t

/-- Python str.split() with no argument, as strings. -/
def wsTokens (str : String) : List String :=
  (wsTokensAux [] str.toList).map String.mk

/-- re.sub of backslash-s-plus to a single space followed by strip:
whitespace runs collapse to single spaces, outer whitespace dropped. -/
def collapseWs (str : String) : String :=
  String.mk (String.join ((wsTokens str).intersperse " ") |>.toList)

/-- Keep only the digit characters of a string (str.replace of
backslash-D-plus with the empty string). -/
def onlyDigits (str : String) : String := String.mk (str.toList.filter Char.isDigit)

/-- str.replace of caret-zero-plus-dollar with the empty string: an
all-zero nonempty string becomes empty, anything else is unchanged. -/
def stripAllZeros (v : String) : String :=
  if v.length > 0 && v.toList.all (fun c => c == '0') then "" else v

/-- Python s.startswith("1"). -/
def startsWithOne (v : String) : Bool :=
  match v.toList with
  | c :: _ => c == '1'
  | [] => false

/-- Atoms of the regex fragment used by the source's column patterns:
a literal (lowercase) character, backslash-s-star, backslash-b, and
dot-star (needed for the spec's shift-title pattern). -/
inductive RAtom : Type
  | ch (c : Char) : RAtom
  | ws : RAtom
  | wb : RAtom
  | dotstar : RAtom
deriving DecidableEq, Repr

/-- Python re word character (ASCII part, which is all that arises in the
column names handled here). -/
def wordChar (c : Char) : Bool := c.isAlphanum || c == '_'

/-- Word-character test of an optional character; none (string edge)
counts as a non-word position, as in re's boundary semantics. -/
def wordOpt : Option Char → Bool
  | none => false
  | some c => wordChar c

/-- Backtracking matcher: does the atom list match a prefix of the
character list, given the previous character (none at string start)?
Fuel is the first argument; every step consumes an atom or a character, so
fuel = atoms + characters always suffices and the zero-fuel branch is
unreachable from matchFrom below. -/
def matchFromF : ℕ → List RAtom → List Char → Option Char → Bool
  | _, [], _, _ => true
  | 0, _ :: _, _, _ => false
  | fuel + 1, .wb :: ps, str, prev =>
    (wordOpt prev != wordOpt str.head?) && matchFromF fuel ps str prev
  | fuel + 1, .ch a :: ps, str, _ =>
    match str with
    | [] => false
    | c :: t => a == c && matchFromF fuel ps t (some c)
  | fuel + 1, .ws :: ps, str, prev =>
    matchFromF fuel ps str prev ||
      (match str with
       | [] => false
       | c :: t => c.isWhitespace && matchFromF fuel (.ws :: ps) t (some c))
  | fuel + 1, .dotstar :: ps, str, prev =>
    matchFromF fuel ps str prev ||
      (match str with
       | [] => false
       | c :: t => matchFromF fuel (.dotstar :: ps) t (some c))

/-- Match the atom list against a prefix of the character list. -/
def matchFrom (ps : List RAtom) (str : List Char) (prev : Option Char) : Bool :=
  matchFromF (ps.length + str.length) ps str prev

/-- re.search semantics: try to match at every start position. -/
def searchFrom (ps : List RAtom) : List Char → Option Char → Bool
  | [], prev => matchFrom ps [] prev
  | c :: t, prev => matchFrom ps (c :: t) prev || searchFrom ps t (some c)

/-- re.search(pattern, name, re.IGNORECASE): case-insensitive substring
search, embedded by lowercasing the haystack (pattern literals are already
lowercase). -/
def rmatch (ps : List RAtom) (name : String) : Bool :=
  searchFrom ps (name.toList.map Char.toLower) none

/-- Literal word as a list of character atoms. -/
def lits (str : String) : List RAtom := str.toList.map RAtom.ch

/-- Pattern list for the name column: backslash-b employee backslash-s-star
name backslash-b, then backslash-b name backslash-b. -/
def namePats : List (List RAtom) :=
  [[.wb] ++ lits "employee" ++ [.ws] ++ lits "name" ++ [.wb],
   [.wb] ++ lits "name" ++ [.wb]]

/-- Pattern list for the phone column: phone, mobile, cell (each with word
boundaries). -/
def phonePats : List (List RAtom) :=
  [[.wb] ++ lits "phone" ++ [.wb],
   [.wb] ++ lits "mobile" ++ [.wb],
   [.wb] ++ lits "cell" ++ [.wb]]

/-- Pattern list for the distance column: miles from location (with
backslash-s-star between words, no boundaries), then distance, miles, mi
(with word boundaries). -/
def milesPats : List (List RAtom) :=
  [lits "miles" ++ [.ws] ++ lits "from" ++ [.ws] ++ lits "location",
   [.wb] ++ lits "distance" ++ [.wb],
   [.wb] ++ lits "miles" ++ [.wb],
   [.wb] ++ lits "mi" ++ [.wb]]

/-- Pattern list for the status column. -/
def statusPats : List (List RAtom) :=
  [[.wb] ++ lits "employee" ++ [.ws] ++ lits "status" ++ [.wb],
   [.wb] ++ lits "status" ++ [.wb]]

/-- Modelled from the spec: the shift/position-title pattern list ("shift
position title", "shift...title", "position title", "position", in that
priority order).  The functions that own these patterns
(detect_shift_titles and the shift-title filter of clean_and_filter) are
imported and called by src/app.py but missing from src/processing.py. -/
def shiftPats : List (List RAtom) :=
  [[.wb] ++ lits "shift" ++ [.ws] ++ lits "position" ++ [.ws] ++ lits "title" ++ [.wb],
   lits "shift" ++ [.dotstar] ++ lits "title",
   [.wb] ++ lits "position" ++ [.ws] ++ lits "title" ++ [.wb],
   [.wb] ++ lits "position" ++ [.wb]]

deriving instance DecidableEq for Except

/-- A DataFrame, column-major: a list of (column label, cell values). -/
abbrev Frame := List (String × List CVal)

/-- df.columns. -/
def colNames (f : Frame) : List String := f.map Prod.fst

/-- df[c]: values of the first column labelled c (empty if absent; with
unique labels, exactly pandas' column access). -/
def colVals (f : Frame) (c : String) : List CVal :=
  ((f.find? (fun lv => lv.1 == c)).map Prod.snd).getD []

/-- len(df): number of rows (length of the first column; all columns built
by this embedding have equal length). -/
def nrows (f : Frame) : ℕ :=
  match f with
  | [] => 0
  | lv :: _ => lv.2.length

/-- Does any pattern in the list match the column name (the inner loop of
find_col)? -/
def anyPatMatch (pats : List (List RAtom)) (c : String) : Bool :=
  pats.any (fun p => rmatch p c)

/-- find_col(df, patterns): first column whose name matches any pattern,
columns tried in table order, patterns in priority order per column. -/
def find_col (f : Frame) (pats : List (List RAtom)) : Option String :=
  (colNames f).find? (anyPatMatch pats)

/-- Header cell normalization: str(x).strip() if notna else the empty
string. -/
def headerCell (c : CVal) : String :=
  match c with
  | .na => ""
  | c => pyStrip (cvalToStr c)

/-- pandas DataFrame.empty: true when either axis has length zero.  In the
row-list representation, zero columns means every row is the empty list. -/
def dfEmpty (raw : List (List CVal)) : Bool := raw.isEmpty || raw.all List.isEmpty

/-- Build the column-major frame from a header label list and the data
rows; column i holds each row's i-th cell (NaN-padded, matching the
rectangular pandas read). -/
def colsOfRows (labels : List String) (dataRows : List (List CVal)) : Frame :=
  labels.enum.map (fun p => (p.2, dataRows.map (fun r => r.getD p.1 CVal.na)))

/-- Header Normalizer (processing.py lines 18-42): raise on an empty
frame, drop the first 3 rows, raise if nothing remains, promote the next
row to (trimmed, whitespace-collapsed) column labels. -/
def promote_header_and_drop_first_three (raw : List (List CVal)) : Except PipeErr Frame :=
  if dfEmpty raw then .error .emptyInput
  else
    match raw.drop 3 with
    | [] => .error .insufficientData
    | hdr :: dataRows => .ok (colsOfRows (hdr.map (fun c => collapseWs (headerCell c))) dataRows)

/-- Step C cell transform: astype(str) followed by dropping non-digits. -/
def cleanPhone (c : CVal) : CVal := .s (onlyDigits (cvalToStr c))

/-- Keep rows by a per-row boolean mask, pandas df[mask] (mask and column
have equal length throughout the pipeline). -/
def maskFilter : List Bool → List CVal → List CVal
  | true :: m, a :: v => a :: maskFilter m v
  | false :: m, _ :: v => maskFilter m v
  | _, _ => []

/-- Apply a row mask to every column of a frame. -/
def applyMask (f : Frame) (m : List Bool) : Frame :=
  f.map (fun lv => (lv.1, maskFilter m lv.2))

/-- df = df[pred applied to column c]: build the mask from the (first)
column labelled c and filter every column with it. -/
def boolMaskStep (f : Frame) (c : String) (p : CVal → Bool) : Frame :=
  applyMask f ((colVals f c).map p)

/-- Reassign the (first) column labelled c by mapping g over its cells,
df[c] = g(df[c]). -/
def mapColFirst (f : Frame) (c : String) (g : CVal → CVal) : Frame :=
  match f with
  | [] => []
  | lv :: rest =>
    if lv.1 == c then (lv.1, lv.2.map g) :: rest
    else lv :: mapColFirst rest c g

/-- Steps C-E on the phone column: digits-only normalization, then drop
missing (a no-op after astype(str), kept for fidelity), drop empty, drop
all-zero, drop leading-"1" values.  Each filter is a boolean mask applied
to the whole frame, as in the source. -/
def phoneSteps (f : Frame) (pc : String) : Frame :=
  let f1 := mapColFirst f pc cleanPhone
  let f2 := boolMaskStep f1 pc (fun c => !(isNa c))
  let f3 := boolMaskStep f2 pc (fun c =>
    match c with
    | .s v => v.length > 0
    | _ => false)
  let f4 := boolMaskStep f3 pc (fun c =>
    match c with
    | .s v => (stripAllZeros v).length > 0
    | _ => false)
  boolMaskStep f4 pc (fun c =>
    match c with
    | .s v => !(startsWithOne v)
    | _ => false)

/-- drop_duplicates mask: true at the first occurrence of each cell value
(pandas treats NaN as equal to NaN here, as does CVal equality). -/
def dedupMask (seen : List CVal) : List CVal → List Bool
  | [] => []
  | a :: v => if a ∈ seen then false :: dedupMask seen v else true :: dedupMask (a :: seen) v

/-- Step F: df.drop_duplicates(subset=[name column]). -/
def dedupStep (f : Frame) (nc : String) : Frame :=
  applyMask f (dedupMask [] (colVals f nc))

/-- The first-occurrence filter itself: what dedupMask keeps of the column
it was built from. -/
def dedupFrom (seen : List CVal) : List CVal → List CVal
  | [] => []
  | a :: v => if a ∈ seen then dedupFrom seen v else a :: dedupFrom (a :: seen) v

/-- Numeral value of a digit list. -/
def digitsVal (ds : List Char) : ℕ :=
  ds.foldl (fun a c => 10 * a + (c.toNat - 48)) 0

/-- pd.to_numeric string parsing (errors="coerce"): optional sign, digits
with an optional decimal point, optional exponent, surrounding whitespace
tolerated; anything else coerces to NaN.  ("inf"/"nan" also coerce to
non-finite floats in pandas; both fail the subsequent finite
less-or-equal comparison exactly as NaN does, so mapping them to none is
faithful for the filter.) -/
def parseNum (str : String) : Option Dec :=
  let l0 := trimChars str.toList
  let sgnl : ℤ × List Char :=
    match l0 with
    | '+' :: t => (1, t)
    | '-' :: t => (-1, t)
    | t => (1, t)
  let ip := sgnl.2.takeWhile Char.isDigit
  let l1 := sgnl.2.dropWhile Char.isDigit
  let fpl : Option (List Char) × List Char :=
    match l1 with
    | '.' :: t => (some (t.takeWhile Char.isDigit), t.dropWhile Char.isDigit)
    | t => (none, t)
  let fp := fpl.1.getD []
  if ip.isEmpty && fp.isEmpty then none
  else
    let mant : ℤ := sgnl.1 * ((digitsVal ip * 10 ^ fp.length + digitsVal fp : ℕ) : ℤ)
    match fpl.2 with
    | [] => some ⟨mant, fp.length⟩
    | 'e' :: t | 'E' :: t =>
      let esl : Bool × List Char :=
        match t with
        | '+' :: u => (true, u)
        | '-' :: u => (false, u)
        | u => (true, u)
      let ed := esl.2.takeWhile Char.isDigit
      if ed.isEmpty || !(esl.2.dropWhile Char.isDigit).isEmpty then none
      else if esl.1 then some ⟨mant * (10 : ℤ) ^ digitsVal ed, fp.length⟩
      else some ⟨mant, fp.length + digitsVal ed⟩
    | _ => none

/-- pd.to_numeric(cell, errors="coerce"). -/
def toNumeric (c : CVal) : CVal :=
  match c with
  | .na => .na
  | .s v =>
    match parseNum v with
    | some d => .n d
    | none => .na
  | .n d => .n d

/-- The distance comparison cell <= max_miles: true only on a parsed
number within bound (NaN comparisons are false). -/
def numLe (mm : Dec) (c : CVal) : Bool :=
  match c with
  | .n d => decLe d mm
  | _ => false

/-- Step G: if a distance column was resolved, coerce it to numbers and
keep rows with value <= max_miles; otherwise a no-op. -/
def milesStep (f : Frame) (mc? : Option String) (mm : Dec) : Frame :=
  match mc? with
  | none => f
  | some mc => boolMaskStep (mapColFirst f mc toNumeric) mc (numLe mm)

/-- Step H row predicate: whitelist membership (case-insensitive, exact,
untrimmed; an empty whitelist means all pass) OR-ed, when include_resigned,
with trimmed case-insensitive equality to "resigned". -/
def statusKeep (wl : List String) (inc : Bool) (c : CVal) : Bool :=
  let sv := cvalToStr c
  (if wl.isEmpty then true else (wl.map pyLower).contains (pyLower sv)) ||
    (inc && (pyLower (pyStrip sv) == "resigned"))

/-- Step H: if a status column was resolved, filter by statusKeep;
otherwise a no-op. -/
def statusStep (f : Frame) (sc? : Option String) (wl : List String) (inc : Bool) : Frame :=
  match sc? with
  | none => f
  | some sc => boolMaskStep f sc (statusKeep wl inc)

/-- Modelled from the spec: shift-title row predicate — the trimmed,
lowercased title value must be a member of the lowercased allowed set. -/
def titleKeep (allowed : List String) (c : CVal) : Bool :=
  (allowed.map pyLower).contains (pyLower (pyStrip (cvalToStr c)))

/-- Modelled from the spec: the shift-title filter step, applied only when
the shift-title column is resolved and the allowed set is non-empty. -/
def titleStep (f : Frame) (tc? : Option String) (allowed : List String) : Frame :=
  match tc? with
  | none => f
  | some tc => if allowed.isEmpty then f else boolMaskStep f tc (titleKeep allowed)

/-- Python s.split(",", 1) followed by strip of both parts: the text
before the first comma and the text after it. -/
def commaSplit1 (l : List Char) : List Char × List Char :=
  (trimChars (l.takeWhile (fun c => !(c == ','))),
   trimChars (match l.dropWhile (fun c => !(c == ',')) with
     | _ :: t => t
     | [] => []))

/-- Name Splitter (processing.py lines 44-63): missing propagates as a
missing pair; blank gives two empty strings; with a comma, last = part
before the first comma, first = first whitespace token after it; otherwise
first token / last token of the whitespace split. -/
def _split_name_to_first_last (full : CVal) : CVal × CVal :=
  match full with
  | .na => (.na, .na)
  | _ =>
    let l := trimChars (cvalToStr full).toList
    if l.isEmpty then (.s "", .s "")
    else if l.contains ',' then
      let parts := commaSplit1 l
      let first :=
        if parts.2.isEmpty then ""
        else ((wsTokensAux [] parts.2).map String.mk).headD ""
      (.s first, .s (String.mk parts.1))
    else
      match (wsTokensAux [] l).map String.mk with
      | [] => (.s "", .s "")
      | [t] => (.s t, .s "")
      | t :: ts => (.s t, .s ((t :: ts).getLastD ""))

/-- Insert a column before position p (pandas df.insert; p never exceeds
the width in the pipeline). -/
def insCol (p : ℕ) (x : String × List CVal) (f : Frame) : Frame :=
  match p, f with
  | 0, f => x :: f
  | _ + 1, [] => [x]
  | p + 1, lv :: f => lv :: insCol p x f

/-- Position of the (first) column labelled c. -/
def colPos (f : Frame) (c : String) : ℕ :=
  (colNames f).findIdx (fun l => l == c)

/-- Step I: split the name column and insert "First Name"/"Last Name"
immediately after it.  On a zero-row frame, Series.apply yields a frame
with no columns, so the "First Name" lookup raises KeyError before any
insert; df.insert raises when the label already exists. -/
def splitStep (f : Frame) (nc : String) : Except PipeErr Frame :=
  if (colVals f nc).isEmpty then .error (.keyError "First Name")
  else if (colNames f).contains "First Name" then .error (.insertExists "First Name")
  else if (colNames f).contains "Last Name" then .error (.insertExists "Last Name")
  else
    let nv := colVals f nc
    let p := colPos f nc
    let f1 := insCol (p + 1) ("First Name", nv.map (fun c => (_split_name_to_first_last c).1)) f
    .ok (insCol (p + 2) ("Last Name", nv.map (fun c => (_split_name_to_first_last c).2)) f1)

/-- The ordered front of the output: [name, "First Name", "Last Name"]
followed by each resolved optional column not already present.  The source
iterates [phone_col, miles_col, status_col]; the shift-title column is
appended to that iteration as the spec's step 10 requires (Modelled from
the spec for that entry). -/
def orderedStep (acc : List String) (oc : Option String) : List String :=
  match oc with
  | some c => if acc.contains c then acc else acc ++ [c]
  | none => acc

def buildOrdered (nc : String) (optCols : List (Option String)) : List String :=
  optCols.foldl orderedStep [nc, "First Name", "Last Name"]

/-- df[names]: project the frame onto the given labels (first matching
column per label). -/
def selectCols (f : Frame) (names : List String) : Frame :=
  names.map (fun c => (c, colVals f c))

/-- Step J: reorder columns to the ordered front followed by the remaining
columns in original order (reset_index is the identity in this
representation). -/
def reorderStep (f : Frame) (nc : String) (optCols : List (Option String)) : Frame :=
  let ordered := buildOrdered nc optCols
  let remaining := (colNames f).filter (fun c => !(ordered.contains c))
  selectCols f (ordered ++ remaining)

/-- The filtering prefix of the pipeline on a promoted frame: resolve
columns, raise on a missing phone or name column, then steps C-H plus the
spec-modelled shift-title filter. -/
def filterCore (df0 : Frame) (mm : Dec) (wl : List String) (inc : Bool)
    (allowed : List String) : Except PipeErr Frame :=
  match find_col df0 phonePats with
  | none => .error (.missingColumn "phone")
  | some pc =>
    let fp := phoneSteps df0 pc
    match find_col df0 namePats with
    | none => .error (.missingColumn "name")
    | some nc =>
      let fd := dedupStep fp nc
      let fm := milesStep fd (find_col df0 milesPats) mm
      let fs := statusStep fm (find_col df0 statusPats) wl inc
      .ok (titleStep fs (find_col df0 shiftPats) allowed)

/-- The pipeline after header promotion: filtering, name splitting, and
column reordering. -/
def cleanCore (df0 : Frame) (mm : Dec) (wl : List String) (inc : Bool)
    (allowed : List String) : Except PipeErr Frame :=
  match filterCore df0 mm wl inc allowed with
  | .error e => .error e
  | .ok f1 =>
    match find_col df0 namePats with
    | none => .error (.missingColumn "name")
    | some nc =>
      match splitStep f1 nc with
      | .error e => .error e
      | .ok f2 =>
        .ok (reorderStep f2 nc
          [find_col df0 phonePats, find_col df0 milesPats,
           find_col df0 statusPats, find_col df0 shiftPats])

/-- Cleaning Pipeline (processing.py lines 65-159): header promotion, then
cleanCore.  The allowed_shift_titles parameter and the shift-title filter
inside cleanCore are Modelled from the spec (src/app.py calls
clean_and_filter with allowed_shift_titles, but src/processing.py's copy
lacks that part). -/
def clean_and_filter (raw : List (List CVal)) (mm : Dec) (wl : List String)
    (inc : Bool) (allowed : List String) : Except PipeErr Frame :=
  match promote_header_and_drop_first_three raw with
  | .error e => .error e
  | .ok df0 => cleanCore df0 mm wl inc allowed

/-- First-occurrence deduplication of a string list (seen accumulates the
values already emitted). -/
def dedupFirstAux (seen : List String) : List String → List String
  | [] => []
  | a :: t => if seen.contains a then dedupFirstAux seen t else a :: dedupFirstAux (a :: seen) t

/-- First-occurrence deduplication of a string list. -/
def dedupFirst (l : List String) : List String := dedupFirstAux [] l

/-- Case-insensitive lexicographic key comparison: code-point order on the
lowercased forms (Python sorted with key=str.lower). -/
def lexLe : List Char → List Char → Bool
  | [], _ => true
  | _ :: _, [] => false
  | a :: t, b :: u => a.toNat < b.toNat || (a.toNat == b.toNat && lexLe t u)

/-- Boolean form of the title sort order. -/
def titleLeB (a b : String) : Bool :=
  lexLe (a.toList.map Char.toLower) (b.toList.map Char.toLower)

/-- The title sort order as a relation. -/
def titleLE (a b : String) : Prop := titleLeB a b = true

instance : DecidableRel titleLE := fun a b => by
  unfold titleLE
  infer_instance

/-- The non-missing, trimmed, non-empty values of the (first) column
labelled tc. -/
def titleVals (f : Frame) (tc : String) : List String :=
  (colVals f tc).filterMap (fun c =>
    match c with
    | .na => none
    | c =>
      let t := pyStrip (cvalToStr c)
      if t.isEmpty then none else some t)

/-- Modelled from the spec: detect_shift_titles on a normalized table —
resolve the shift/position-title column (empty result when unresolved),
collect non-missing trimmed non-empty values, deduplicate them as raw
strings keeping first occurrences, and sort case-insensitively with a
stable sort.  The function is imported by src/app.py (line 11) but missing
from src/processing.py. -/
def detect_shift_titles (f : Frame) : List String :=
  match find_col f shiftPats with
  | none => []
  | some tc => List.insertionSort titleLE (dedupFirst (titleVals f tc))

/-- Rectangularity of a raw table: all rows have equal width (every pandas
DataFrame satisfies this; the row-list representation also admits ragged
inputs no DataFrame can represent). -/
def Rect (raw : List (List CVal)) : Prop :=
  ∀ r ∈ raw, ∀ q ∈ raw, r.length = q.length

/-- The phone invariant on an output cell: a string value that is
non-empty, not all zeros, and does not begin with the digit 1. -/
def phoneOkCell (x : CVal) : Prop :=
  ∃ v, x = CVal.s v ∧ v ≠ "" ∧ (v.toList.all (fun ch => ch == '0')) = false ∧
    startsWithOne v = false

/-- A six-data-row roster used to instantiate the pipeline theorems. -/
def sampleRaw : List (List CVal) :=
  [[CVal.s "Report", CVal.s "", CVal.s "", CVal.s "", CVal.s ""],
   [CVal.s "Date", CVal.s "", CVal.s "", CVal.s "", CVal.s ""],
   [CVal.s "Meta", CVal.s "", CVal.s "", CVal.s "", CVal.s ""],
   [CVal.s "Employee Name", CVal.s "Phone", CVal.s "Miles From Location",
    CVal.s "Employee Status", CVal.s "Shift Position Title"],
   [CVal.s "Smith, John", CVal.s "(555) 223-1000", CVal.s "12.5", CVal.s "Active", CVal.s "RN"],
   [CVal.s "Smith, John", CVal.s "(555) 223-1000", CVal.s "12.5", CVal.s "Active", CVal.s "RN"],
   [CVal.s "Doe, Jane", CVal.s "1-555-2231", CVal.s "3", CVal.s "Active", CVal.s "LPN"],
   [CVal.s "Roe, Rich", CVal.s "555-000-1111", CVal.s "99", CVal.s "Active", CVal.s "RN"],
   [CVal.s "Poe, Ed", CVal.s "555-000-2222", CVal.s "10", CVal.s "Resigned", CVal.s "LPN"],
   [CVal.s "Foe, Al", CVal.s "555-000-3333", CVal.s "10", CVal.s "Terminated", CVal.s "RN"]]

/-- A raw table whose phone and distance patterns resolve to the same
column "Phone Miles": the distance step numerically coerces the cleaned
phone string 0155 into the number 155. -/
def c4raw : List (List CVal) :=
  [[CVal.s "x"], [CVal.s "x"], [CVal.s "x"],
   [CVal.s "Name", CVal.s "Phone Miles"],
   [CVal.s "A", CVal.s "0155"]]

/-- A raw table with two duplicate-name groups: both Bob rows fail the
phone filter (so no Bob row survives), and the first Carol row fails the
phone filter (so the surviving Carol row is the second one, tagged c2). -/
def c5raw : List (List CVal) :=
  [[CVal.s "x"], [CVal.s "x"], [CVal.s "x"],
   [CVal.s "Name", CVal.s "Phone", CVal.s "Tag"],
   [CVal.s "Bob", CVal.s "111", CVal.s "b1"],
   [CVal.s "Bob", CVal.s "112", CVal.s "b2"],
   [CVal.s "Carol", CVal.s "15550001111", CVal.s "c1"],
   [CVal.s "Carol", CVal.s "5550002222", CVal.s "c2"]]

/-- A raw table whose only data row is eliminated by the phone filter
(phone begins with 1), leaving zero rows for the name-splitting step. -/
def c10raw : List (List CVal) :=
  [[CVal.s "x"], [CVal.s "x"], [CVal.s "x"],
   [CVal.s "Name", CVal.s "Phone"],
   [CVal.s "Zed", CVal.s "15551234567"]]

/-- The normalized frame of sampleRaw. -/
def sampleDf0 : Frame :=
  [("Employee Name",
    [CVal.s "Smith, John", CVal.s "Smith, John", CVal.s "Doe, Jane",
     CVal.s "Roe, Rich", CVal.s "Poe, Ed", CVal.s "Foe, Al"]),
   ("Phone",
    [CVal.s "(555) 223-1000", CVal.s "(555) 223-1000", CVal.s "1-555-2231",
     CVal.s "555-000-1111", CVal.s "555-000-2222", CVal.s "555-000-3333"]),
   ("Miles From Location",
    [CVal.s "12.5", CVal.s "12.5", CVal.s "3", CVal.s "99", CVal.s "10", CVal.s "10"]),
   ("Employee Status",
    [CVal.s "Active", CVal.s "Active", CVal.s "Active", CVal.s "Active",
     CVal.s "Resigned", CVal.s "Terminated"]),
   ("Shift Position Title",
    [CVal.s "RN", CVal.s "RN", CVal.s "LPN", CVal.s "RN", CVal.s "LPN", CVal.s "RN"])]

/-- The cleaned output of sampleRaw at max 50 miles, whitelist ["Active"],
include_resigned, allowed titles ["RN"]. -/
def sampleOutRN : Frame :=
  [("Employee Name", [CVal.s "Smith, John"]),
   ("First Name", [CVal.s "John"]),
   ("Last Name", [CVal.s "Smith"]),
   ("Phone", [CVal.s "5552231000"]),
   ("Miles From Location", [CVal.n ⟨125, 1⟩]),
   ("Employee Status", [CVal.s "Active"]),
   ("Shift Position Title", [CVal.s "RN"])]

/-- The cleaned output of c5raw with no optional criteria. -/
def c5out : Frame :=
  [("Name", [CVal.s "Carol"]),
   ("First Name", [CVal.s "Carol"]),
   ("Last Name", [CVal.s ""]),
   ("Phone", [CVal.s "5550002222"]),
   ("Tag", [CVal.s "c2"])]

/-- The normalized frame of c10raw. -/
def c10df0 : Frame := [("Name", [CVal.s "Zed"]), ("Phone", [CVal.s "15551234567"])]

/-- The frame c10raw's filtering steps leave: every row eliminated. -/
def c10f1 : Frame := [("Name", []), ("Phone", [])]

/-! ### The matcher's fuel is canonical: any fuel at least the atom count
plus the character count gives the same verdict, so matchFrom (which uses
exactly that bound) computes the unbounded backtracking semantics -/

theorem matchFromF_succ (fuel : ℕ) : ∀ (ps : List RAtom) (str : List Char) (prev : Option Char),
    ps.length + str.length ≤ fuel →
    matchFromF (fuel + 1) ps str prev = matchFromF fuel ps str prev := by
  induction fuel with
  | zero =>
    intro ps str prev h
    cases ps with
    | nil => rfl
    | cons a ps => simp at h
  | succ fuel ih =>
    intro ps str prev h
    cases ps with
    | nil => rfl
    | cons atom ps =>
      have hps : ps.length + str.length ≤ fuel := by
        simp only [List.length_cons] at h
        omega
      cases atom with
      | wb =>
        show ((wordOpt prev != wordOpt str.head?) && matchFromF (fuel + 1) ps str prev) =
          ((wordOpt prev != wordOpt str.head?) && matchFromF fuel ps str prev)
        rw [ih ps str prev hps]
      | ch a =>
        cases str with
        | nil => rfl
        | cons c t =>
          show (a == c && matchFromF (fuel + 1) ps t (some c)) =
            (a == c && matchFromF fuel ps t (some c))
          rw [ih ps t (some c) (by simp only [List.length_cons] at h ⊢; omega)]
      | ws =>
        cases str with
        | nil =>
          show (matchFromF (fuel + 1) ps [] prev || false) =
            (matchFromF fuel ps [] prev || false)
          rw [ih ps [] prev hps]
        | cons c t =>
          show (matchFromF (fuel + 1) ps (c :: t) prev ||
              (c.isWhitespace && matchFromF (fuel + 1) (RAtom.ws :: ps) t (some c))) =
            (matchFromF fuel ps (c :: t) prev ||
              (c.isWhitespace && matchFromF fuel (RAtom.ws :: ps) t (some c)))
          rw [ih ps (c :: t) prev hps,
            ih (RAtom.ws :: ps) t (some c) (by simp only [List.length_cons] at h ⊢; omega)]
      | dotstar =>
        cases str with
        | nil =>
          show (matchFromF (fuel + 1) ps [] prev || false) =
            (matchFromF fuel ps [] prev || false)
          rw [ih ps [] prev hps]
        | cons c t =>
          show (matchFromF (fuel + 1) ps (c :: t) prev ||
              matchFromF (fuel + 1) (RAtom.dotstar :: ps) t (some c)) =
            (matchFromF fuel ps (c :: t) prev ||
              matchFromF fuel (RAtom.dotstar :: ps) t (some c))
          rw [ih ps (c :: t) prev hps,
            ih (RAtom.dotstar :: ps) t (some c) (by simp only [List.length_cons] at h ⊢; omega)]

theorem matchFromF_add (ps : List RAtom) (str : List Char) (prev : Option Char) :
    ∀ k, matchFromF (ps.length + str.length + k) ps str prev =
      matchFromF (ps.length + str.length) ps str prev := by
  intro k
  induction k with
  | zero => rfl
  | succ k ih =>
    rw [show ps.length + str.length + (k + 1) = (ps.length + str.length + k) + 1 by omega]
    rw [matchFromF_succ _ ps str prev (by omega)]
    exact ih

theorem matchFromF_ge (fuel : ℕ) (ps : List RAtom) (str : List Char) (prev : Option Char)
    (h : ps.length + str.length ≤ fuel) :
    matchFromF fuel ps str prev = matchFrom ps str prev := by
  unfold matchFrom
  obtain ⟨k, rfl⟩ := Nat.exists_eq_add_of_le h
  exact matchFromF_add ps str prev k

/-! ### Basic lemmas on masks, columns and frames -/

theorem maskFilter_nil (m : List Bool) : maskFilter m [] = [] := by
  cases m with
  | nil => rfl
  | cons b m => cases b <;> rfl

theorem maskFilter_sublist (m : List Bool) (v : List CVal) : (maskFilter m v).Sublist v := by
  induction v generalizing m with
  | nil => rw [maskFilter_nil]
  | cons a v ih =>
    cases m with
    | nil => exact List.nil_sublist _
    | cons b m =>
      cases b with
      | false => exact (ih m).cons a
      | true => exact (ih m).cons₂ a

theorem maskFilter_map_self (p : CVal → Bool) (v : List CVal) :
    maskFilter (v.map p) v = v.filter p := by
  induction v with
  | nil => rfl
  | cons a v ih =>
    cases hpa : p a with
    | false => simp [List.filter_cons, hpa, ih, maskFilter]
    | true => simp [List.filter_cons, hpa, ih, maskFilter]

theorem colVals_nil (c : String) : colVals [] c = [] := rfl

theorem colVals_cons (l : String) (v : List CVal) (f : Frame) (c : String) :
    colVals ((l, v) :: f) c = if l == c then v else colVals f c := by
  cases h : (l == c) with
  | true => simp [colVals, List.find?, h]
  | false => simp [colVals, List.find?, h]

theorem colNames_applyMask (f : Frame) (m : List Bool) :
    colNames (applyMask f m) = colNames f := by
  induction f with
  | nil => rfl
  | cons lv f ih =>
    show lv.1 :: colNames (applyMask f m) = lv.1 :: colNames f
    rw [ih]

theorem colVals_applyMask (f : Frame) (m : List Bool) (c : String) :
    colVals (applyMask f m) c = maskFilter m (colVals f c) := by
  induction f with
  | nil => exact (maskFilter_nil m).symm
  | cons lv f ih =>
    obtain ⟨l, v⟩ := lv
    show colVals ((l, maskFilter m v) :: applyMask f m) c = _
    rw [colVals_cons, colVals_cons]
    cases h : (l == c) with
    | true => simp
    | false => simp [ih]

theorem colNames_mapColFirst (f : Frame) (c : String) (g : CVal → CVal) :
    colNames (mapColFirst f c g) = colNames f := by
  induction f with
  | nil => rfl
  | cons lv f ih =>
    rw [mapColFirst]
    cases h : (lv.1 == c) with
    | true =>
      simp only [h, if_true]
      rfl
    | false =>
      simp only [h, Bool.false_eq_true, if_false]
      show lv.1 :: colNames (mapColFirst f c g) = lv.1 :: colNames f
      rw [ih]

theorem colVals_mapColFirst_self (f : Frame) (c : String) (g : CVal → CVal) :
    colVals (mapColFirst f c g) c = (colVals f c).map g := by
  induction f with
  | nil => rfl
  | cons lv f ih =>
    obtain ⟨l, v⟩ := lv
    unfold mapColFirst
    cases h : (l == c) with
    | true =>
      show colVals ((l, v.map g) :: f) c = _
      rw [colVals_cons, colVals_cons, h]
      simp
    | false =>
      show colVals ((l, v) :: mapColFirst f c g) c = _
      rw [colVals_cons, colVals_cons, h]
      simp [ih]

theorem colVals_mapColFirst_ne (f : Frame) (c c' : String) (g : CVal → CVal)
    (h : c' ≠ c) : colVals (mapColFirst f c g) c' = colVals f c' := by
  induction f with
  | nil => rfl
  | cons lv f ih =>
    obtain ⟨l, v⟩ := lv
    unfold mapColFirst
    cases hc : (l == c) with
    | true =>
      show colVals ((l, v.map g) :: f) c' = _
      rw [colVals_cons, colVals_cons]
      have : (l == c') = false := by
        have hl : l = c := by simpa using hc
        subst hl
        exact beq_eq_false_iff_ne.2 (fun hx => h hx.symm)
      simp [this]
    | false =>
      show colVals ((l, v) :: mapColFirst f c g) c' = _
      rw [colVals_cons, colVals_cons, ih]

theorem colVals_insCol_ne (p : ℕ) (x : String × List CVal) (f : Frame) (c : String)
    (hx : x.1 ≠ c) : colVals (insCol p x f) c = colVals f c := by
  induction p generalizing f with
  | zero =>
    obtain ⟨xl, xv⟩ := x
    show colVals ((xl, xv) :: f) c = _
    rw [colVals_cons]
    simp [beq_eq_false_iff_ne.2 hx]
  | succ p ih =>
    cases f with
    | nil =>
      obtain ⟨xl, xv⟩ := x
      show colVals [(xl, xv)] c = colVals [] c
      rw [colVals_cons]
      simp [beq_eq_false_iff_ne.2 hx, colVals_nil]
    | cons lv f =>
      obtain ⟨l, v⟩ := lv
      show colVals ((l, v) :: insCol p x f) c = _
      rw [colVals_cons, colVals_cons, ih]

theorem colVals_selectCols (f : Frame) (names : List String) (c : String) (h : c ∈ names) :
    colVals (selectCols f names) c = colVals f c := by
  induction names with
  | nil => cases h
  | cons a names ih =>
    show colVals ((a, colVals f a) :: selectCols f names) c = _
    rw [colVals_cons]
    cases ha : (a == c) with
    | true =>
      simp only [if_true]
      exact congrArg (colVals f) (by simpa using ha)
    | false =>
      simp only [Bool.false_eq_true, if_false]
      have : c ∈ names := by
        rcases List.mem_cons.1 h with h1 | h1
        · exact absurd (h1.symm) (by simpa using ha)
        · exact h1
      exact ih this

theorem colNames_boolMaskStep (f : Frame) (c : String) (p : CVal → Bool) :
    colNames (boolMaskStep f c p) = colNames f := colNames_applyMask _ _

theorem colVals_boolMaskStep_self (f : Frame) (c : String) (p : CVal → Bool) :
    colVals (boolMaskStep f c p) c = (colVals f c).filter p := by
  unfold boolMaskStep
  rw [colVals_applyMask, maskFilter_map_self]

theorem colVals_boolMaskStep_sub (f : Frame) (c0 c : String) (p : CVal → Bool) :
    (colVals (boolMaskStep f c0 p) c).Sublist (colVals f c) := by
  unfold boolMaskStep
  rw [colVals_applyMask]
  exact maskFilter_sublist _ _

/-! ### Deduplication lemmas -/

theorem maskFilter_dedupMask (v : List CVal) : ∀ seen,
    maskFilter (dedupMask seen v) v = dedupFrom seen v := by
  induction v with
  | nil => intro seen; rfl
  | cons a v ih =>
    intro seen
    by_cases h : a ∈ seen
    · simp only [dedupMask, dedupFrom, if_pos h]
      show maskFilter (false :: dedupMask seen v) (a :: v) = dedupFrom seen v
      rw [show maskFilter (false :: dedupMask seen v) (a :: v) = maskFilter (dedupMask seen v) v from rfl]
      exact ih seen
    · simp only [dedupMask, dedupFrom, if_neg h]
      show maskFilter (true :: dedupMask (a :: seen) v) (a :: v) = a :: dedupFrom (a :: seen) v
      rw [show maskFilter (true :: dedupMask (a :: seen) v) (a :: v) =
        a :: maskFilter (dedupMask (a :: seen) v) v from rfl]
      rw [ih]

theorem mem_dedupFrom_not_seen (v : List CVal) : ∀ seen x, x ∈ dedupFrom seen v → x ∉ seen := by
  induction v with
  | nil => intro seen x h; cases h
  | cons a v ih =>
    intro seen x h
    by_cases ha : a ∈ seen
    · rw [dedupFrom, if_pos ha] at h
      exact ih seen x h
    · rw [dedupFrom, if_neg ha] at h
      rcases List.mem_cons.1 h with h1 | h1
      · subst h1; exact ha
      · intro hx
        exact ih (a :: seen) x h1 (List.mem_cons_of_mem a hx)

theorem dedupFrom_pairwise (v : List CVal) : ∀ seen,
    (dedupFrom seen v).Pairwise (fun x y => x ≠ y) := by
  induction v with
  | nil => intro seen; exact List.Pairwise.nil
  | cons a v ih =>
    intro seen
    by_cases ha : a ∈ seen
    · rw [dedupFrom, if_pos ha]; exact ih seen
    · rw [dedupFrom, if_neg ha]
      refine List.pairwise_cons.2 ⟨fun y hy => ?_, ih (a :: seen)⟩
      intro hxy
      exact mem_dedupFrom_not_seen v (a :: seen) y hy (hxy ▸ List.mem_cons_self a seen)

theorem dedupFrom_congr (v : List CVal) : ∀ seen1 seen2,
    (∀ x, x ∈ seen1 ↔ x ∈ seen2) → dedupFrom seen1 v = dedupFrom seen2 v := by
  induction v with
  | nil => intro _ _ _; rfl
  | cons a v ih =>
    intro seen1 seen2 h
    by_cases ha : a ∈ seen1
    · rw [dedupFrom, if_pos ha, dedupFrom, if_pos ((h a).1 ha)]
      exact ih seen1 seen2 h
    · rw [dedupFrom, if_neg ha, dedupFrom, if_neg (fun hx => ha ((h a).2 hx))]
      refine congrArg (a :: ·) (ih _ _ fun x => ?_)
      simp only [List.mem_cons]
      exact or_congr Iff.rfl (h x)

theorem dedupFrom_seen_filter (v : List CVal) : ∀ seen (a : CVal),
    dedupFrom (a :: seen) v = dedupFrom seen (v.filter (fun b => !(b == a))) := by
  induction v with
  | nil => intro _ _; rfl
  | cons b v ih =>
    intro seen a
    by_cases hba : b = a
    · subst hba
      rw [dedupFrom, if_pos (List.mem_cons_self b seen)]
      simp only [List.filter_cons, beq_self_eq_true, Bool.not_true]
      exact ih seen b
    · have hfb : (!(b == a)) = true := by simp [hba]
      simp only [List.filter_cons, hfb, if_true]
      by_cases hb : b ∈ seen
      · rw [dedupFrom, if_pos (List.mem_cons_of_mem a hb), dedupFrom, if_pos hb]
        exact ih seen a
      · have : b ∉ a :: seen := by
          intro h
          rcases List.mem_cons.1 h with h1 | h1
          · exact hba h1
          · exact hb h1
        rw [dedupFrom, if_neg this, dedupFrom, if_neg hb]
        refine congrArg (b :: ·) ?_
        rw [show ∀ l, dedupFrom (b :: a :: seen) l = dedupFrom (a :: b :: seen) l from
          fun l => dedupFrom_congr l _ _ (fun x => by simp [List.mem_cons]; tauto)]
        exact ih (b :: seen) a

theorem count_le_one_of_pairwise_ne (l : List CVal)
    (h : l.Pairwise (fun x y => x ≠ y)) (a : CVal) : l.count a ≤ 1 := by
  induction l with
  | nil => simp
  | cons b l ih =>
    have hb := List.pairwise_cons.1 h
    rw [List.count_cons]
    by_cases hba : b = a
    · subst hba
      have : l.count b = 0 := List.count_eq_zero.2 (fun hmem => hb.1 b hmem rfl)
      simp [this]
    · have : (b == a) = false := beq_eq_false_iff_ne.2 hba
      simp only [this, Bool.false_eq_true, if_false]
      exact Nat.le_trans (ih hb.2) (by omega)

theorem colVals_dedupStep_self (f : Frame) (nc : String) :
    colVals (dedupStep f nc) nc = dedupFrom [] (colVals f nc) := by
  unfold dedupStep
  rw [colVals_applyMask, maskFilter_dedupMask]

theorem colVals_dedupStep_sub (f : Frame) (nc c : String) :
    (colVals (dedupStep f nc) c).Sublist (colVals f c) := by
  unfold dedupStep
  rw [colVals_applyMask]
  exact maskFilter_sublist _ _

theorem colNames_dedupStep (f : Frame) (nc : String) :
    colNames (dedupStep f nc) = colNames f := colNames_applyMask _ _

/-! ### Step-level column lemmas -/

theorem colNames_phoneSteps (f : Frame) (pc : String) :
    colNames (phoneSteps f pc) = colNames f := by
  unfold phoneSteps
  rw [colNames_boolMaskStep, colNames_boolMaskStep, colNames_boolMaskStep,
    colNames_boolMaskStep, colNames_mapColFirst]

theorem colVals_phoneSteps_sub (f : Frame) (pc c : String) (h : c ≠ pc) :
    (colVals (phoneSteps f pc) c).Sublist (colVals f c) := by
  unfold phoneSteps
  refine ((((colVals_boolMaskStep_sub _ _ _ _).trans
    (colVals_boolMaskStep_sub _ _ _ _)).trans
    (colVals_boolMaskStep_sub _ _ _ _)).trans
    (colVals_boolMaskStep_sub _ _ _ _)).trans ?_
  rw [colVals_mapColFirst_ne _ _ _ _ h]

theorem mem_phoneSteps_self (f : Frame) (pc : String) (x : CVal)
    (hx : x ∈ colVals (phoneSteps f pc) pc) : phoneOkCell x := by
  unfold phoneSteps at hx
  rw [colVals_boolMaskStep_self] at hx
  rcases List.mem_filter.1 hx with ⟨hx, hp4⟩
  rw [colVals_boolMaskStep_self] at hx
  rcases List.mem_filter.1 hx with ⟨hx, hp3⟩
  rw [colVals_boolMaskStep_self] at hx
  rcases List.mem_filter.1 hx with ⟨hx, hp2⟩
  cases x with
  | na => cases hp2
  | n d => cases hp2
  | s v =>
    refine ⟨v, rfl, ?_, ?_, ?_⟩
    · intro hv
      subst hv
      simp at hp2
    · have hp3' : 0 < (stripAllZeros v).length := by simpa using hp3
      by_contra hall
      have hall' : (v.toList.all fun ch => ch == '0') = true := by
        cases hv : (v.toList.all fun ch => ch == '0') with
        | false => exact absurd hv hall
        | true => rfl
      have hlen : 0 < v.length := by simpa using hp2
      have hz : stripAllZeros v = "" := by
        unfold stripAllZeros
        have hc : (v.length > 0 && v.toList.all (fun c => c == '0')) = true := by
          simp only [Bool.and_eq_true, hall', and_true, decide_eq_true_eq]
          exact hlen
        rw [if_pos hc]
      rw [hz] at hp3'
      simp at hp3'
    · simpa using hp4

theorem colVals_milesStep_sub (f : Frame) (mc? : Option String) (mm : Dec) (c : String)
    (h : ∀ mc, mc? = some mc → mc ≠ c) :
    (colVals (milesStep f mc? mm) c).Sublist (colVals f c) := by
  cases mc? with
  | none => exact List.Sublist.refl _
  | some mc =>
    show (colVals (boolMaskStep (mapColFirst f mc toNumeric) mc (numLe mm)) c).Sublist _
    refine (colVals_boolMaskStep_sub _ _ _ _).trans ?_
    rw [colVals_mapColFirst_ne _ _ _ _ (fun hc => h mc rfl hc.symm)]

theorem colNames_milesStep (f : Frame) (mc? : Option String) (mm : Dec) :
    colNames (milesStep f mc? mm) = colNames f := by
  cases mc? with
  | none => rfl
  | some mc =>
    show colNames (boolMaskStep (mapColFirst f mc toNumeric) mc (numLe mm)) = _
    rw [colNames_boolMaskStep, colNames_mapColFirst]

theorem mem_milesStep_self (f : Frame) (mc : String) (mm : Dec) (x : CVal)
    (hx : x ∈ colVals (milesStep f (some mc) mm) mc) :
    ∃ d, x = CVal.n d ∧ decLe d mm = true := by
  have : colVals (milesStep f (some mc) mm) mc =
      ((colVals f mc).map toNumeric).filter (numLe mm) := by
    show colVals (boolMaskStep (mapColFirst f mc toNumeric) mc (numLe mm)) mc = _
    rw [colVals_boolMaskStep_self, colVals_mapColFirst_self]
  rw [this] at hx
  rcases List.mem_filter.1 hx with ⟨_, hkeep⟩
  cases x with
  | na => cases hkeep
  | s v => cases hkeep
  | n d => exact ⟨d, rfl, hkeep⟩

theorem colVals_statusStep_sub (f : Frame) (sc? : Option String) (wl : List String)
    (inc : Bool) (c : String) :
    (colVals (statusStep f sc? wl inc) c).Sublist (colVals f c) := by
  cases sc? with
  | none => exact List.Sublist.refl _
  | some sc => exact colVals_boolMaskStep_sub _ _ _ _

theorem colNames_statusStep (f : Frame) (sc? : Option String) (wl : List String)
    (inc : Bool) : colNames (statusStep f sc? wl inc) = colNames f := by
  cases sc? with
  | none => rfl
  | some sc => exact colNames_boolMaskStep _ _ _

theorem colVals_titleStep_sub (f : Frame) (tc? : Option String) (allowed : List String)
    (c : String) : (colVals (titleStep f tc? allowed) c).Sublist (colVals f c) := by
  cases tc? with
  | none => exact List.Sublist.refl _
  | some tc =>
    show (colVals (if allowed.isEmpty then f else boolMaskStep f tc (titleKeep allowed)) c).Sublist _
    by_cases h : allowed.isEmpty
    · rw [if_pos h]
    · rw [if_neg h]
      exact colVals_boolMaskStep_sub _ _ _ _

theorem colNames_titleStep (f : Frame) (tc? : Option String) (allowed : List String) :
    colNames (titleStep f tc? allowed) = colNames f := by
  cases tc? with
  | none => rfl
  | some tc =>
    show colNames (if allowed.isEmpty then f else boolMaskStep f tc (titleKeep allowed)) = _
    by_cases h : allowed.isEmpty
    · rw [if_pos h]
    · rw [if_neg h]
      exact colNames_boolMaskStep _ _ _

theorem mem_titleStep_self (f : Frame) (tc : String) (allowed : List String)
    (hne : allowed ≠ []) (x : CVal)
    (hx : x ∈ colVals (titleStep f (some tc) allowed) tc) :
    titleKeep allowed x = true := by
  have hie : allowed.isEmpty = false := by
    cases allowed with
    | nil => exact absurd rfl hne
    | cons a l => rfl
  have : colVals (titleStep f (some tc) allowed) tc = (colVals f tc).filter (titleKeep allowed) := by
    show colVals (if allowed.isEmpty then f else boolMaskStep f tc (titleKeep allowed)) tc = _
    rw [hie]
    show colVals (boolMaskStep f tc (titleKeep allowed)) tc = _
    exact colVals_boolMaskStep_self _ _ _
  rw [this] at hx
  exact (List.mem_filter.1 hx).2

/-! ### find_col, ordered-front and split/reorder lemmas -/

theorem find_col_matches (f : Frame) (pats : List (List RAtom)) (c : String)
    (h : find_col f pats = some c) : anyPatMatch pats c = true :=
  List.find?_some h

theorem find_col_mem (f : Frame) (pats : List (List RAtom)) (c : String)
    (h : find_col f pats = some c) : c ∈ colNames f :=
  List.mem_of_find?_eq_some h

theorem ne_of_patMatch (pats : List (List RAtom)) (c c' : String)
    (h : anyPatMatch pats c = true) (h' : anyPatMatch pats c' = false) : c ≠ c' := by
  intro he
  rw [he, h'] at h
  cases h

theorem find?_first_iff (p : String → Bool) (l : List String) (x : String) :
    l.find? p = some x ↔
      ∃ l1 l2, l = l1 ++ x :: l2 ∧ p x = true ∧ ∀ y ∈ l1, p y = false := by
  induction l with
  | nil =>
    constructor
    · intro h; cases h
    · rintro ⟨l1, l2, h, _, _⟩
      cases l1 <;> cases h
  | cons a l ih =>
    cases ha : p a with
    | true =>
      rw [List.find?_cons_of_pos _ ha]
      constructor
      · intro h
        obtain rfl := Option.some.inj h
        exact ⟨[], l, rfl, ha, fun y hy => absurd hy (List.not_mem_nil y)⟩
      · rintro ⟨l1, l2, heq, hpx, hall⟩
        cases l1 with
        | nil =>
          simp only [List.nil_append, List.cons.injEq] at heq
          rw [heq.1]
        | cons b l1 =>
          simp only [List.cons_append, List.cons.injEq] at heq
          have := hall b (List.mem_cons_self b l1)
          rw [← heq.1] at this
          rw [this] at ha
          cases ha
    | false =>
      rw [List.find?_cons_of_neg _ (by simp [ha])]
      rw [ih]
      constructor
      · rintro ⟨l1, l2, heq, hpx, hall⟩
        refine ⟨a :: l1, l2, by rw [heq, List.cons_append], hpx, ?_⟩
        intro y hy
        rcases List.mem_cons.1 hy with h1 | h1
        · rw [h1]; exact ha
        · exact hall y h1
      · rintro ⟨l1, l2, heq, hpx, hall⟩
        cases l1 with
        | nil =>
          simp only [List.nil_append, List.cons.injEq] at heq
          rw [heq.1] at ha
          rw [ha] at hpx
          cases hpx
        | cons b l1 =>
          simp only [List.cons_append, List.cons.injEq] at heq
          exact ⟨l1, l2, heq.2, hpx, fun y hy => hall y (List.mem_cons_of_mem b hy)⟩

theorem mem_orderedStep_acc (acc : List String) (oc : Option String) (x : String)
    (h : x ∈ acc) : x ∈ orderedStep acc oc := by
  cases oc with
  | none => exact h
  | some c =>
    show x ∈ if acc.contains c = true then acc else acc ++ [c]
    by_cases hc : acc.contains c
    · rw [if_pos hc]; exact h
    · rw [if_neg hc]; exact List.mem_append_left _ h

theorem mem_foldl_orderedStep (l : List (Option String)) : ∀ (acc : List String) (x : String),
    x ∈ acc → x ∈ l.foldl orderedStep acc := by
  induction l with
  | nil => intro acc x h; exact h
  | cons oc l ih =>
    intro acc x h
    rw [List.foldl_cons]
    exact ih _ _ (mem_orderedStep_acc acc oc x h)

theorem some_mem_foldl_orderedStep (l : List (Option String)) : ∀ (acc : List String) (c : String),
    some c ∈ l → c ∈ l.foldl orderedStep acc := by
  induction l with
  | nil => intro acc c h; cases h
  | cons oc l ih =>
    intro acc c h
    rw [List.foldl_cons]
    rcases List.mem_cons.1 h with h1 | h1
    · refine mem_foldl_orderedStep l _ c ?_
      rw [← h1]
      show c ∈ if acc.contains c = true then acc else acc ++ [c]
      by_cases hc : acc.contains c
      · rw [if_pos hc]
        exact (List.elem_iff).1 hc
      · rw [if_neg hc]
        exact List.mem_append_right _ (List.mem_singleton.2 rfl)
    · exact ih _ c h1

theorem mem_buildOrdered_of_some (nc : String) (optCols : List (Option String)) (c : String)
    (h : some c ∈ optCols) : c ∈ buildOrdered nc optCols :=
  some_mem_foldl_orderedStep optCols _ c h

theorem nc_mem_buildOrdered (nc : String) (optCols : List (Option String)) :
    nc ∈ buildOrdered nc optCols :=
  mem_foldl_orderedStep optCols _ nc (List.mem_cons_self _ _)

theorem splitStep_ok_inv (f : Frame) (nc : String) (f2 : Frame)
    (h : splitStep f nc = .ok f2) :
    (colVals f nc).isEmpty = false ∧
      ((colNames f).contains "First Name") = false ∧
      ((colNames f).contains "Last Name") = false := by
  unfold splitStep at h
  by_cases h1 : (colVals f nc).isEmpty
  · rw [if_pos h1] at h; cases h
  · rw [if_neg h1] at h
    by_cases h2 : (colNames f).contains "First Name"
    · rw [if_pos h2] at h; cases h
    · rw [if_neg h2] at h
      by_cases h3 : (colNames f).contains "Last Name"
      · rw [if_pos h3] at h; cases h
      · exact ⟨Bool.not_eq_true _ ▸ (by simpa using h1),
          Bool.not_eq_true _ ▸ (by simpa using h2),
          Bool.not_eq_true _ ▸ (by simpa using h3)⟩

theorem splitStep_colVals (f : Frame) (nc : String) (f2 : Frame) (c : String)
    (h : splitStep f nc = .ok f2) (h1 : c ≠ "First Name") (h2 : c ≠ "Last Name") :
    colVals f2 c = colVals f c := by
  unfold splitStep at h
  by_cases e1 : (colVals f nc).isEmpty
  · rw [if_pos e1] at h; cases h
  · rw [if_neg e1] at h
    by_cases e2 : (colNames f).contains "First Name"
    · rw [if_pos e2] at h; cases h
    · rw [if_neg e2] at h
      by_cases e3 : (colNames f).contains "Last Name"
      · rw [if_pos e3] at h; cases h
      · rw [if_neg e3] at h
        have hf2 := Except.ok.inj h
        rw [← hf2]
        rw [colVals_insCol_ne _ _ _ _ (fun hx => h2 hx.symm),
          colVals_insCol_ne _ _ _ _ (fun hx => h1 hx.symm)]

theorem colVals_reorderStep (f : Frame) (nc : String) (optCols : List (Option String))
    (c : String) (h : c ∈ buildOrdered nc optCols) :
    colVals (reorderStep f nc optCols) c = colVals f c := by
  unfold reorderStep
  exact colVals_selectCols _ _ _ (List.mem_append_left _ h)

/-! ### Inversion of the pipeline composition -/

theorem filterCore_ok_inv (df0 : Frame) (mm : Dec) (wl : List String) (inc : Bool)
    (allowed : List String) (f1 : Frame)
    (h : filterCore df0 mm wl inc allowed = .ok f1) :
    ∃ pc nc, find_col df0 phonePats = some pc ∧ find_col df0 namePats = some nc ∧
      f1 = titleStep (statusStep (milesStep (dedupStep (phoneSteps df0 pc) nc)
        (find_col df0 milesPats) mm) (find_col df0 statusPats) wl inc)
        (find_col df0 shiftPats) allowed := by
  unfold filterCore at h
  cases hp : find_col df0 phonePats with
  | none => rw [hp] at h; cases h
  | some pc =>
    rw [hp] at h
    cases hn : find_col df0 namePats with
    | none => rw [hn] at h; cases h
    | some nc =>
      rw [hn] at h
      exact ⟨pc, nc, rfl, rfl, (Except.ok.inj h).symm⟩

theorem cleanCore_ok_inv (df0 : Frame) (mm : Dec) (wl : List String) (inc : Bool)
    (allowed : List String) (F : Frame)
    (h : cleanCore df0 mm wl inc allowed = .ok F) :
    ∃ f1 nc f2, filterCore df0 mm wl inc allowed = .ok f1 ∧
      find_col df0 namePats = some nc ∧ splitStep f1 nc = .ok f2 ∧
      F = reorderStep f2 nc [find_col df0 phonePats, find_col df0 milesPats,
        find_col df0 statusPats, find_col df0 shiftPats] := by
  unfold cleanCore at h
  split at h
  · cases h
  next f1 hf =>
    split at h
    · cases h
    next nc hn =>
      split at h
      · cases h
      next f2 hs =>
        exact ⟨f1, nc, f2, hf, hn, hs, (Except.ok.inj h).symm⟩

theorem clean_ok_inv (raw : List (List CVal)) (mm : Dec) (wl : List String) (inc : Bool)
    (allowed : List String) (F : Frame)
    (h : clean_and_filter raw mm wl inc allowed = .ok F) :
    ∃ df0, promote_header_and_drop_first_three raw = .ok df0 ∧
      cleanCore df0 mm wl inc allowed = .ok F := by
  unfold clean_and_filter at h
  cases hp : promote_header_and_drop_first_three raw with
  | error e => rw [hp] at h; cases h
  | ok df0 =>
    rw [hp] at h
    exact ⟨df0, rfl, h⟩

/-! ### Small helpers for the claim proofs -/

theorem not_mem_of_contains_false {l : List String} {a : String}
    (h : l.contains a = false) : a ∉ l := by
  intro hm
  have he : l.elem a = true := List.elem_iff.2 hm
  rw [show l.contains a = l.elem a from rfl, he] at h
  cases h

theorem decLe_iff (a b : Dec) : decLe a b = true ↔ a.val ≤ b.val := by
  unfold decLe Dec.val
  rw [decide_eq_true_iff]
  rw [div_le_div_iff₀ (by positivity) (by positivity)]
  constructor
  · intro h
    exact_mod_cast h
  · intro h
    exact_mod_cast h

/-- Shared spine of the pipeline claims: from a successful clean_and_filter
run, the output values of any column c that is one of the resolved optional
columns (or the name column) and differs from the two inserted labels are
exactly that column's values as the title step left them. -/
theorem colVals_final (raw : List (List CVal)) (mm : Dec) (wl : List String)
    (inc : Bool) (allowed : List String) (df0 F f1 : Frame) (nc : String) (c : String)
    (hp : promote_header_and_drop_first_three raw = .ok df0)
    (hok : clean_and_filter raw mm wl inc allowed = .ok F)
    (hf1 : filterCore df0 mm wl inc allowed = .ok f1)
    (hnc : find_col df0 namePats = some nc)
    (hcmem : c ∈ buildOrdered nc [find_col df0 phonePats, find_col df0 milesPats,
      find_col df0 statusPats, find_col df0 shiftPats])
    (hcf : c ≠ "First Name") (hcl : c ≠ "Last Name") :
    colVals F c = colVals f1 c := by
  obtain ⟨df0', hp', hcore⟩ := clean_ok_inv _ _ _ _ _ _ hok
  rw [hp] at hp'
  obtain rfl := Except.ok.inj hp'
  obtain ⟨f1', nc', f2, hf1', hnc', hsplit, hF⟩ := cleanCore_ok_inv _ _ _ _ _ _ hcore
  rw [hf1] at hf1'
  obtain rfl := Except.ok.inj hf1'
  rw [hnc] at hnc'
  obtain rfl := Option.some.inj hnc'
  rw [hF, colVals_reorderStep _ _ _ _ hcmem,
    splitStep_colVals _ _ _ _ hsplit hcf hcl]

/-! ### Claim theorems -/

/-- C4 (amended): for every raw table and criteria for which
clean_and_filter returns a cleaned table, provided the resolved distance
column is not the phone column (when both resolve to the same column, the
to_numeric coercion of step G overwrites the cleaned phone strings — see
the counterexample), every value of the output phone column is a string
that is non-empty, not composed entirely of zeros, and does not begin with
the digit "1". -/
theorem claim_C4 (raw : List (List CVal)) (mm : Dec) (wl : List String) (inc : Bool)
    (allowed : List String) (df0 F : Frame) (pc : String)
    (hp : promote_header_and_drop_first_three raw = .ok df0)
    (hpc : find_col df0 phonePats = some pc)
    (hmiles : ∀ mc, find_col df0 milesPats = some mc → mc ≠ pc)
    (hok : clean_and_filter raw mm wl inc allowed = .ok F) :
    ∀ x ∈ colVals F pc, phoneOkCell x := by
  obtain ⟨df0', hp', hcore⟩ := clean_ok_inv _ _ _ _ _ _ hok
  rw [hp] at hp'
  obtain rfl := Except.ok.inj hp'
  obtain ⟨f1, nc, f2, hf1, hnc, hsplit, hF⟩ := cleanCore_ok_inv _ _ _ _ _ _ hcore
  obtain ⟨pc', nc', hpc', hnc', hf1eq⟩ := filterCore_ok_inv _ _ _ _ _ _ hf1
  rw [hpc] at hpc'
  obtain rfl := Option.some.inj hpc'
  rw [hnc] at hnc'
  obtain rfl := Option.some.inj hnc'
  have hpcm := find_col_matches _ _ _ hpc
  have hpc_fn : pc ≠ "First Name" :=
    ne_of_patMatch phonePats pc "First Name" hpcm (by decide)
  have hpc_ln : pc ≠ "Last Name" :=
    ne_of_patMatch phonePats pc "Last Name" hpcm (by decide)
  intro x hx
  rw [colVals_final raw mm wl inc allowed df0 F f1 nc pc hp hok hf1 hnc
    (mem_buildOrdered_of_some _ _ _ (by rw [hpc]; exact List.mem_cons_self _ _))
    hpc_fn hpc_ln] at hx
  rw [hf1eq] at hx
  have hx := List.Sublist.mem hx (colVals_titleStep_sub _ _ _ _)
  have hx := List.Sublist.mem hx (colVals_statusStep_sub _ _ _ _ _)
  have hx := List.Sublist.mem hx (colVals_milesStep_sub _ _ _ _ hmiles)
  have hx := List.Sublist.mem hx (colVals_dedupStep_sub _ _ _)
  exact mem_phoneSteps_self _ _ _ hx

/-- C7: (a) whenever a distance column is resolved and clean_and_filter
returns a cleaned table, every value of the output distance column is a
parsed number of value at most max_miles; (b) a row whose distance value is
unparsable fails the distance comparison (it is dropped, not an error); (c)
a row whose distance value parses to exactly max_miles passes the
comparison (the boundary is inclusive). -/
theorem claim_C7 :
    (∀ (raw : List (List CVal)) (mm : Dec) (wl : List String) (inc : Bool)
      (allowed : List String) (df0 F : Frame) (mc : String),
      promote_header_and_drop_first_three raw = .ok df0 →
      find_col df0 milesPats = some mc →
      clean_and_filter raw mm wl inc allowed = .ok F →
      ∀ x ∈ colVals F mc, ∃ d, x = CVal.n d ∧ Dec.val d ≤ Dec.val mm)
    ∧ (∀ (v : String) (mm : Dec), parseNum v = none →
        numLe mm (toNumeric (CVal.s v)) = false)
    ∧ (∀ (v : String) (mm : Dec) (d : Dec), parseNum v = some d →
        Dec.val d = Dec.val mm → numLe mm (toNumeric (CVal.s v)) = true) := by
  refine ⟨?_, ?_, ?_⟩
  · intro raw mm wl inc allowed df0 F mc hp hmc hok
    obtain ⟨df0', hp', hcore⟩ := clean_ok_inv _ _ _ _ _ _ hok
    rw [hp] at hp'
    obtain rfl := Except.ok.inj hp'
    obtain ⟨f1, nc, f2, hf1, hnc, hsplit, hF⟩ := cleanCore_ok_inv _ _ _ _ _ _ hcore
    obtain ⟨pc, nc', hpc, hnc', hf1eq⟩ := filterCore_ok_inv _ _ _ _ _ _ hf1
    rw [hnc] at hnc'
    obtain rfl := Option.some.inj hnc'
    have hmcm := find_col_matches _ _ _ hmc
    have hmc_fn : mc ≠ "First Name" :=
      ne_of_patMatch milesPats mc "First Name" hmcm (by decide)
    have hmc_ln : mc ≠ "Last Name" :=
      ne_of_patMatch milesPats mc "Last Name" hmcm (by decide)
    intro x hx
    rw [colVals_final raw mm wl inc allowed df0 F f1 nc mc hp hok hf1 hnc
      (mem_buildOrdered_of_some _ _ _ (by rw [hmc]; simp)) hmc_fn hmc_ln] at hx
    rw [hf1eq, hmc] at hx
    have hx := List.Sublist.mem hx (colVals_titleStep_sub _ _ _ _)
    have hx := List.Sublist.mem hx (colVals_statusStep_sub _ _ _ _ _)
    obtain ⟨d, rfl, hd⟩ := mem_milesStep_self _ _ _ _ hx
    exact ⟨d, rfl, (decLe_iff d mm).1 hd⟩
  · intro v mm h
    show numLe mm (match parseNum v with
      | some d => CVal.n d
      | none => CVal.na) = false
    rw [h]
    rfl
  · intro v mm d h hval
    show numLe mm (match parseNum v with
      | some d => CVal.n d
      | none => CVal.na) = true
    rw [h]
    show decLe d mm = true
    exact (decLe_iff d mm).2 (le_of_eq hval)

/-- C1 (spec-modelled): clean_and_filter accepts allowed_shift_titles; when
the set is empty or the shift-title column is unresolved the title step
removes no row, and whenever the column resolves to tc and the set is
non-empty, every value of the output title column is, after trimming and
lowercasing, a member of the lowercased allowed set. -/
theorem claim_C1 :
    (∀ (f : Frame) (tc? : Option String), titleStep f tc? [] = f)
    ∧ (∀ (f : Frame) (allowed : List String), titleStep f none allowed = f)
    ∧ (∀ (raw : List (List CVal)) (mm : Dec) (wl : List String) (inc : Bool)
        (allowed : List String) (df0 F : Frame) (tc : String),
        promote_header_and_drop_first_three raw = .ok df0 →
        find_col df0 shiftPats = some tc →
        allowed ≠ [] →
        clean_and_filter raw mm wl inc allowed = .ok F →
        ∀ x ∈ colVals F tc,
          pyLower (pyStrip (cvalToStr x)) ∈ allowed.map pyLower) := by
  refine ⟨?_, ?_, ?_⟩
  · intro f tc?
    cases tc? with
    | none => rfl
    | some tc => rfl
  · intro f allowed
    rfl
  · intro raw mm wl inc allowed df0 F tc hp htc hne hok
    obtain ⟨df0', hp', hcore⟩ := clean_ok_inv _ _ _ _ _ _ hok
    rw [hp] at hp'
    obtain rfl := Except.ok.inj hp'
    obtain ⟨f1, nc, f2, hf1, hnc, hsplit, hF⟩ := cleanCore_ok_inv _ _ _ _ _ _ hcore
    obtain ⟨pc, nc', hpc, hnc', hf1eq⟩ := filterCore_ok_inv _ _ _ _ _ _ hf1
    rw [hnc] at hnc'
    obtain rfl := Option.some.inj hnc'
    have htcm := find_col_matches _ _ _ htc
    have htc_fn : tc ≠ "First Name" :=
      ne_of_patMatch shiftPats tc "First Name" htcm (by decide)
    have htc_ln : tc ≠ "Last Name" :=
      ne_of_patMatch shiftPats tc "Last Name" htcm (by decide)
    intro x hx
    rw [colVals_final raw mm wl inc allowed df0 F f1 nc tc hp hok hf1 hnc
      (mem_buildOrdered_of_some _ _ _ (by rw [htc]; simp)) htc_fn htc_ln] at hx
    rw [hf1eq, htc] at hx
    have hkeep := mem_titleStep_self _ _ _ hne _ hx
    unfold titleKeep at hkeep
    exact List.elem_iff.1 hkeep

/-- C10: when the phone and name columns resolve but the filtering steps
leave zero rows, clean_and_filter does not return an empty cleaned table:
Series.apply over the empty name column yields no "First Name" column and
the pipeline raises the KeyError instead of returning. -/
theorem claim_C10 (raw : List (List CVal)) (mm : Dec) (wl : List String) (inc : Bool)
    (allowed : List String) (df0 f1 : Frame) (nc : String)
    (hp : promote_header_and_drop_first_three raw = .ok df0)
    (hnc : find_col df0 namePats = some nc)
    (hf1 : filterCore df0 mm wl inc allowed = .ok f1)
    (hempty : colVals f1 nc = []) :
    clean_and_filter raw mm wl inc allowed = .error (.keyError "First Name") := by
  simp only [clean_and_filter, hp, cleanCore, hf1, hnc, splitStep, hempty,
    List.isEmpty_nil, if_true]

/-- C5 (amended): (a) for every successful clean_and_filter run, the output
name column holds any given raw cell value (a string or NaN, as read; never
a to_numeric number) at most once; (b) the deduplication step keeps, of the
rows reaching it (those surviving the phone filter), the first occurrence
of each name value and drops the later ones: its output name column is the
first-occurrence filter of its input name column, which keeps the head and
recurses on the tail with the head's duplicates removed. -/
theorem claim_C5 :
    (∀ (raw : List (List CVal)) (mm : Dec) (wl : List String) (inc : Bool)
      (allowed : List String) (df0 F : Frame) (nc : String) (x : CVal),
      promote_header_and_drop_first_three raw = .ok df0 →
      find_col df0 namePats = some nc →
      clean_and_filter raw mm wl inc allowed = .ok F →
      (∀ d : Dec, x ≠ CVal.n d) →
      (colVals F nc).count x ≤ 1)
    ∧ (∀ (f : Frame) (nc : String),
        colVals (dedupStep f nc) nc = dedupFrom [] (colVals f nc))
    ∧ (∀ (a : CVal) (v : List CVal),
        dedupFrom [] (a :: v) = a :: dedupFrom [] (v.filter (fun b => !(b == a)))) := by
  refine ⟨?_, colVals_dedupStep_self, ?_⟩
  · intro raw mm wl inc allowed df0 F nc x hp hnc hok hxn
    obtain ⟨df0', hp', hcore⟩ := clean_ok_inv _ _ _ _ _ _ hok
    rw [hp] at hp'
    obtain rfl := Except.ok.inj hp'
    obtain ⟨f1, nc', f2, hf1, hnc', hsplit, hF⟩ := cleanCore_ok_inv _ _ _ _ _ _ hcore
    rw [hnc] at hnc'
    obtain rfl := Option.some.inj hnc'
    obtain ⟨pc, nc', hpc, hnc', hf1eq⟩ := filterCore_ok_inv _ _ _ _ _ _ hf1
    rw [hnc] at hnc'
    obtain rfl := Option.some.inj hnc'
    have hnames : colNames f1 = colNames df0 := by
      rw [hf1eq, colNames_titleStep, colNames_statusStep, colNames_milesStep,
        colNames_dedupStep, colNames_phoneSteps]
    have hncmem : nc ∈ colNames f1 := by
      rw [hnames]
      exact find_col_mem _ _ _ hnc
    obtain ⟨_, hcf, hcl⟩ := splitStep_ok_inv _ _ _ hsplit
    have hnc_fn : nc ≠ "First Name" :=
      fun he => not_mem_of_contains_false hcf (he ▸ hncmem)
    have hnc_ln : nc ≠ "Last Name" :=
      fun he => not_mem_of_contains_false hcl (he ▸ hncmem)
    rw [colVals_final raw mm wl inc allowed df0 F f1 nc nc hp hok hf1 hnc
      (nc_mem_buildOrdered _ _) hnc_fn hnc_ln]
    rw [hf1eq]
    have hpair : (colVals (dedupStep (phoneSteps df0 pc) nc) nc).Pairwise
        (fun a b => a ≠ b) := by
      rw [colVals_dedupStep_self]
      exact dedupFrom_pairwise _ _
    have hsub1 : (colVals (titleStep (statusStep (milesStep
        (dedupStep (phoneSteps df0 pc) nc) (find_col df0 milesPats) mm)
        (find_col df0 statusPats) wl inc) (find_col df0 shiftPats) allowed) nc).Sublist
        (colVals (milesStep (dedupStep (phoneSteps df0 pc) nc)
          (find_col df0 milesPats) mm) nc) :=
      (colVals_titleStep_sub _ _ _ _).trans (colVals_statusStep_sub _ _ _ _ _)
    refine Nat.le_trans (List.Sublist.count_le hsub1 x) ?_
    cases hmc : find_col df0 milesPats with
    | none =>
      show (colVals (dedupStep (phoneSteps df0 pc) nc) nc).count x ≤ 1
      exact count_le_one_of_pairwise_ne _ hpair x
    | some mc =>
      by_cases hmcnc : mc = nc
      · subst hmcnc
        have hcv : colVals (milesStep (dedupStep (phoneSteps df0 pc) mc)
            (some mc) mm) mc =
            ((colVals (dedupStep (phoneSteps df0 pc) mc) mc).map toNumeric).filter
              (numLe mm) := by
          show colVals (boolMaskStep (mapColFirst _ mc toNumeric) mc (numLe mm)) mc = _
          rw [colVals_boolMaskStep_self, colVals_mapColFirst_self]
        rw [hcv]
        have : x ∉ ((colVals (dedupStep (phoneSteps df0 pc) mc) mc).map toNumeric).filter
            (numLe mm) := by
          intro hmem
          have hkeep := (List.mem_filter.1 hmem).2
          cases x with
          | na => cases hkeep
          | s v => cases hkeep
          | n d => exact hxn d rfl
        rw [List.count_eq_zero.2 this]
        omega
      · have hsub2 := colVals_milesStep_sub (dedupStep (phoneSteps df0 pc) nc)
          (some mc) mm nc (fun mc' h' => (Option.some.inj h') ▸ hmcnc)
        refine Nat.le_trans (List.Sublist.count_le hsub2 x) ?_
        exact count_le_one_of_pairwise_ne _ hpair x
  · intro a v
    rw [dedupFrom, if_neg (List.not_mem_nil a)]
    exact congrArg (a :: ·) (dedupFrom_seen_filter v [] a)

/-- C6: with a resolved status column the status step keeps exactly the
rows satisfying statusKeep; a cell satisfies statusKeep iff its value
matches the whitelist (case-insensitive exact match, empty whitelist passes
everything) or include_resigned is set and the trimmed value is "resigned"
case-insensitively; in particular with whitelist ["Active"] and
include_resigned, "Resigned" is kept and "Terminated" is dropped. -/
theorem claim_C6 :
    (∀ (f : Frame) (sc : String) (wl : List String) (inc : Bool),
      colVals (statusStep f (some sc) wl inc) sc = (colVals f sc).filter (statusKeep wl inc))
    ∧ (∀ (wl : List String) (inc : Bool) (c : CVal),
        statusKeep wl inc c = true ↔
          ((wl = [] ∨ pyLower (cvalToStr c) ∈ wl.map pyLower) ∨
            (inc = true ∧ pyLower (pyStrip (cvalToStr c)) = "resigned")))
    ∧ statusKeep ["Active"] true (CVal.s "Resigned") = true
    ∧ statusKeep ["Active"] true (CVal.s "Terminated") = false := by
  refine ⟨?_, ?_, by decide, by decide⟩
  · intro f sc wl inc
    exact colVals_boolMaskStep_self _ _ _
  · intro wl inc c
    unfold statusKeep
    rw [Bool.or_eq_true, Bool.and_eq_true]
    constructor
    · rintro (h | ⟨hinc, heq⟩)
      · by_cases hwl : wl.isEmpty
        · exact Or.inl (Or.inl (List.isEmpty_iff.1 hwl))
        · rw [if_neg hwl] at h
          exact Or.inl (Or.inr (List.elem_iff.1 h))
      · exact Or.inr ⟨hinc, by simpa using heq⟩
    · rintro ((h | h) | ⟨hinc, heq⟩)
      · subst h
        exact Or.inl (by rfl)
      · refine Or.inl ?_
        by_cases hwl : wl.isEmpty
        · rw [if_pos hwl]
        · rw [if_neg hwl]
          exact List.elem_iff.2 h
      · exact Or.inr ⟨hinc, by simpa using heq⟩

/-- C8: find_col returns some c exactly when c is the first column label in
table order matched (case-insensitively) by any pattern — so the first
matching column wins, not the column matched by the highest-priority
pattern — and returns none exactly when no column label matches any
pattern. -/
theorem claim_C8 (f : Frame) (pats : List (List RAtom)) :
    (∀ c, find_col f pats = some c ↔
      ∃ l1 l2, colNames f = l1 ++ c :: l2 ∧ anyPatMatch pats c = true ∧
        ∀ c2 ∈ l1, anyPatMatch pats c2 = false)
    ∧ (find_col f pats = none ↔ ∀ c ∈ colNames f, anyPatMatch pats c = false) := by
  constructor
  · intro c
    exact find?_first_iff (anyPatMatch pats) (colNames f) c
  · rw [show find_col f pats = (colNames f).find? (anyPatMatch pats) from rfl,
      List.find?_eq_none]
    constructor
    · intro h c hc
      cases hm : anyPatMatch pats c with
      | false => rfl
      | true => exact absurd hm (h c hc)
    · intro h c hc
      rw [h c hc]
      simp

/-- C9: the name splitter maps missing to a missing pair; a present but
whitespace-only string to two empty strings; a string with a comma to
last = the trimmed part before the first comma and first = the first
whitespace token after it (empty when there is none); and otherwise to the
first and last whitespace tokens (last empty for a single token) — with the
three concrete scenarios of the spec. -/
theorem claim_C9 :
    _split_name_to_first_last CVal.na = (CVal.na, CVal.na)
    ∧ (∀ v : String, trimChars v.toList = [] →
        _split_name_to_first_last (CVal.s v) = (CVal.s "", CVal.s ""))
    ∧ (∀ v : String, trimChars v.toList ≠ [] →
        (trimChars v.toList).contains ',' = true →
        _split_name_to_first_last (CVal.s v) =
          (CVal.s (((wsTokensAux [] (commaSplit1 (trimChars v.toList)).2).map String.mk).headD ""),
           CVal.s (String.mk (commaSplit1 (trimChars v.toList)).1)))
    ∧ (∀ v : String, trimChars v.toList ≠ [] →
        (trimChars v.toList).contains ',' = false →
        _split_name_to_first_last (CVal.s v) =
          (CVal.s (((wsTokensAux [] (trimChars v.toList)).map String.mk).headD ""),
           CVal.s (if ((wsTokensAux [] (trimChars v.toList)).map String.mk).length ≤ 1 then ""
             else ((wsTokensAux [] (trimChars v.toList)).map String.mk).getLastD "")))
    ∧ _split_name_to_first_last (CVal.s "Smith, John Michael") = (CVal.s "John", CVal.s "Smith")
    ∧ _split_name_to_first_last (CVal.s "John Michael Smith") = (CVal.s "John", CVal.s "Smith")
    ∧ _split_name_to_first_last (CVal.s "Prince") = (CVal.s "Prince", CVal.s "") := by
  refine ⟨rfl, ?_, ?_, ?_, by decide, by decide, by decide⟩
  · intro v hv
    show (if (trimChars (cvalToStr (CVal.s v)).toList).isEmpty then
        ((CVal.s "", CVal.s "") : CVal × CVal)
      else _) = (CVal.s "", CVal.s "")
    rw [show cvalToStr (CVal.s v) = v from rfl, hv]
    rfl
  · intro v hne hc
    have hie : (trimChars v.toList).isEmpty = false := by
      cases he : trimChars v.toList with
      | nil => exact absurd he hne
      | cons a t => rfl
    show (if (trimChars (cvalToStr (CVal.s v)).toList).isEmpty then _
      else if (trimChars (cvalToStr (CVal.s v)).toList).contains ',' then
        (CVal.s (if (commaSplit1 (trimChars (cvalToStr (CVal.s v)).toList)).2.isEmpty then ""
          else ((wsTokensAux [] (commaSplit1 (trimChars (cvalToStr (CVal.s v)).toList)).2).map String.mk).headD ""),
         CVal.s (String.mk (commaSplit1 (trimChars (cvalToStr (CVal.s v)).toList)).1))
      else _) = _
    rw [show cvalToStr (CVal.s v) = v from rfl, hie]
    simp only [Bool.false_eq_true, if_false, hc, if_true]
    by_cases h2 : (commaSplit1 (trimChars v.toList)).2.isEmpty
    · rw [if_pos h2]
      rw [List.isEmpty_iff.1 h2]
      rfl
    · rw [if_neg h2]
  · intro v hne hc
    have hie : (trimChars v.toList).isEmpty = false := by
      cases he : trimChars v.toList with
      | nil => exact absurd he hne
      | cons a t => rfl
    cases htok : (wsTokensAux [] (trimChars v.toList)).map String.mk with
    | nil =>
      simp only [_split_name_to_first_last, cvalToStr, hie, hc, htok,
        Bool.false_eq_true, if_false, List.headD, List.length_nil]
      rw [if_pos (by omega)]
    | cons t ts =>
      cases ts with
      | nil =>
        simp only [_split_name_to_first_last, cvalToStr, hie, hc, htok,
          Bool.false_eq_true, if_false, List.headD, List.length_cons, List.length_nil]
        rw [if_pos (by omega)]
      | cons t2 ts2 =>
        simp only [_split_name_to_first_last, cvalToStr, hie, hc, htok,
          Bool.false_eq_true, if_false, List.headD, List.length_cons]
        rw [if_neg (by omega)]

theorem nrows_colsOfRows (labels : List String) (dataRows : List (List CVal))
    (h : labels ≠ []) : nrows (colsOfRows labels dataRows) = dataRows.length := by
  cases labels with
  | nil => exact absurd rfl h
  | cons a rest =>
    show (dataRows.map (fun r => r.getD 0 CVal.na)).length = dataRows.length
    exact List.length_map _ _

/-- C3 (amended): for every rectangular raw table with at least one
column, normalization with at least 4 rows yields a table with input row
count minus 4 data rows; with 1 to 3 rows it raises InsufficientDataError;
and with zero rows — or zero columns, which the source's emptiness check
also routes to the first error — it raises EmptyInputError, the two error
kinds being distinct constructors. -/
theorem claim_C3 (raw : List (List CVal)) :
    (4 ≤ raw.length → Rect raw → raw.all List.isEmpty = false →
      ∃ f, promote_header_and_drop_first_three raw = .ok f ∧ nrows f = raw.length - 4)
    ∧ (1 ≤ raw.length → raw.length < 4 → raw.all List.isEmpty = false →
        promote_header_and_drop_first_three raw = .error .insufficientData)
    ∧ (dfEmpty raw = true →
        promote_header_and_drop_first_three raw = .error .emptyInput)
    ∧ PipeErr.insufficientData ≠ PipeErr.emptyInput := by
  have hne : raw.all List.isEmpty = false → 1 ≤ raw.length → dfEmpty raw = false := by
    intro hall hlen
    unfold dfEmpty
    rw [hall]
    cases raw with
    | nil => simp at hlen
    | cons r rest => rfl
  refine ⟨?_, ?_, ?_, by decide⟩
  · intro hlen hrect hall
    have hde := hne hall (by omega)
    unfold promote_header_and_drop_first_three
    rw [hde]
    simp only [Bool.false_eq_true, if_false]
    cases hdrop : raw.drop 3 with
    | nil =>
      have := List.length_drop 3 raw
      rw [hdrop] at this
      simp at this
      omega
    | cons hdr dataRows =>
      refine ⟨_, rfl, ?_⟩
      have hlendrop := List.length_drop 3 raw
      rw [hdrop] at hlendrop
      simp only [List.length_cons] at hlendrop
      obtain ⟨r, hr, hrne⟩ := List.all_eq_false.1 hall
      have hrlen : 0 < r.length := by
        cases r with
        | nil => simp at hrne
        | cons a t => simp
      have hhdr : hdr ∈ raw := List.drop_subset 3 raw (hdrop ▸ List.mem_cons_self _ _)
      have hhlen : 0 < hdr.length := by
        rw [hrect hdr hhdr r hr]
        exact hrlen
      rw [nrows_colsOfRows]
      · omega
      · intro hmape
        rw [← List.length_eq_zero] at hmape
        rw [List.length_map] at hmape
        omega
  · intro h1 h4 hall
    have hde := hne hall h1
    unfold promote_header_and_drop_first_three
    rw [hde]
    simp only [Bool.false_eq_true, if_false]
    rw [List.drop_eq_nil_iff.2 (by omega)]
  · intro h
    unfold promote_header_and_drop_first_three
    rw [h]
    rfl

/-- C3 counterexample: a raw table of four rows and zero columns (four
empty rows, a legal rectangular DataFrame shape) has at least 4 rows yet
normalization raises EmptyInputError instead of returning a table, because
pandas DataFrame.empty is true when either axis has length zero. -/
theorem claim_C3_cex :
    promote_header_and_drop_first_three [[], [], [], []] = .error .emptyInput ∧
      4 ≤ ([[], [], [], []] : List (List CVal)).length := by
  decide

/-! ### Case-insensitive sort order: reflexivity, totality, transitivity,
and stability of insertion sort on the lowercase key classes -/

theorem lexLe_refl (l : List Char) : lexLe l l = true := by
  induction l with
  | nil => rfl
  | cons a t ih =>
    show (decide (a.toNat < a.toNat) || (a.toNat == a.toNat && lexLe t t)) = true
    simp [ih]

theorem lexLe_total (l1 l2 : List Char) : lexLe l1 l2 = true ∨ lexLe l2 l1 = true := by
  induction l1 generalizing l2 with
  | nil => exact Or.inl rfl
  | cons a t ih =>
    cases l2 with
    | nil => exact Or.inr rfl
    | cons b u =>
      show (decide (a.toNat < b.toNat) || (a.toNat == b.toNat && lexLe t u)) = true ∨
        (decide (b.toNat < a.toNat) || (b.toNat == a.toNat && lexLe u t)) = true
      rcases Nat.lt_trichotomy a.toNat b.toNat with h | h | h
      · exact Or.inl (by simp [h])
      · rcases ih u with h2 | h2
        · exact Or.inl (by simp [h, h2])
        · exact Or.inr (by simp [h.symm, h2])
      · exact Or.inr (by simp [h])

theorem lexLe_trans (l1 l2 l3 : List Char) (h1 : lexLe l1 l2 = true)
    (h2 : lexLe l2 l3 = true) : lexLe l1 l3 = true := by
  induction l1 generalizing l2 l3 with
  | nil => rfl
  | cons a t ih =>
    cases l2 with
    | nil => cases h1
    | cons b u =>
      cases l3 with
      | nil => cases h2
      | cons c w =>
        have h1' : a.toNat < b.toNat ∨ (a.toNat = b.toNat ∧ lexLe t u = true) := by
          have hb : (decide (a.toNat < b.toNat) || (a.toNat == b.toNat && lexLe t u)) = true := h1
          simpa using hb
        have h2' : b.toNat < c.toNat ∨ (b.toNat = c.toNat ∧ lexLe u w = true) := by
          have hb : (decide (b.toNat < c.toNat) || (b.toNat == c.toNat && lexLe u w)) = true := h2
          simpa using hb
        show (decide (a.toNat < c.toNat) || (a.toNat == c.toNat && lexLe t w)) = true
        rcases h1' with hlt1 | ⟨heq1, hle1⟩
        · rcases h2' with hlt2 | ⟨heq2, _⟩
          · simp [show a.toNat < c.toNat by omega]
          · simp [show a.toNat < c.toNat by omega]
        · rcases h2' with hlt2 | ⟨heq2, hle2⟩
          · simp [show a.toNat < c.toNat by omega]
          · have hlw : lexLe t w = true := ih u w hle1 hle2
            simp [show a.toNat = c.toNat by omega, hlw]

instance : IsTotal String titleLE :=
  ⟨fun a b => by
    unfold titleLE titleLeB
    exact lexLe_total _ _⟩

instance : IsTrans String titleLE :=
  ⟨fun _ _ _ h1 h2 => lexLe_trans _ _ _ h1 h2⟩

theorem titleLE_of_key_eq (a b : String) (h : pyLower a = pyLower b) : titleLE a b := by
  unfold titleLE titleLeB
  have hl : a.toList.map Char.toLower = b.toList.map Char.toLower := by
    have := congrArg String.toList h
    simpa [pyLower] using this
  rw [hl]
  exact lexLe_refl _

theorem filter_key_orderedInsert (k a : String) (l : List String) :
    (List.orderedInsert titleLE a l).filter (fun x => pyLower x == k) =
      (a :: l).filter (fun x => pyLower x == k) := by
  induction l with
  | nil => rfl
  | cons b u ih =>
    show ((if titleLE a b then a :: b :: u else b :: List.orderedInsert titleLE a u).filter
      (fun x => pyLower x == k)) = _
    by_cases hab : titleLE a b
    · rw [if_pos hab]
    · rw [if_neg hab]
      have hkey : (pyLower b == k) = true → (pyLower a == k) = false := by
        intro hbk
        cases hak : (pyLower a == k) with
        | false => rfl
        | true =>
          have hk : pyLower a = pyLower b := by
            have hx1 : pyLower a = k := by simpa using hak
            have hx2 : pyLower b = k := by simpa using hbk
            rw [hx1, hx2]
          exact absurd (titleLE_of_key_eq a b hk) hab
      cases hbk : (pyLower b == k) with
      | false =>
        have e1 : List.filter (fun x => pyLower x == k) (b :: List.orderedInsert titleLE a u) =
            List.filter (fun x => pyLower x == k) (List.orderedInsert titleLE a u) := by
          rw [List.filter_cons, hbk]
          simp
        have e2 : List.filter (fun x => pyLower x == k) (b :: u) =
            List.filter (fun x => pyLower x == k) u := by
          rw [List.filter_cons, hbk]
          simp
        rw [e1, ih, List.filter_cons, List.filter_cons, e2]
      | true =>
        have hak := hkey hbk
        have e1 : List.filter (fun x => pyLower x == k) (b :: List.orderedInsert titleLE a u) =
            b :: List.filter (fun x => pyLower x == k) (List.orderedInsert titleLE a u) := by
          rw [List.filter_cons, hbk]
          simp
        have e2 : List.filter (fun x => pyLower x == k) (a :: u) =
            List.filter (fun x => pyLower x == k) u := by
          rw [List.filter_cons, hak]
          simp
        have e3 : List.filter (fun x => pyLower x == k) (a :: b :: u) =
            List.filter (fun x => pyLower x == k) (b :: u) := by
          rw [List.filter_cons, hak]
          simp
        have e4 : List.filter (fun x => pyLower x == k) (b :: u) =
            b :: List.filter (fun x => pyLower x == k) u := by
          rw [List.filter_cons, hbk]
          simp
        rw [e1, ih, e2, e3, e4]

theorem filter_key_insertionSort (k : String) (l : List String) :
    (List.insertionSort titleLE l).filter (fun x => pyLower x == k) =
      l.filter (fun x => pyLower x == k) := by
  induction l with
  | nil => rfl
  | cons a l ih =>
    show ((List.orderedInsert titleLE a (List.insertionSort titleLE l)).filter
      (fun x => pyLower x == k)) = _
    rw [filter_key_orderedInsert, List.filter_cons, List.filter_cons, ih]

theorem mem_dedupFirstAux (l : List String) : ∀ (seen : List String) (x : String),
    x ∈ dedupFirstAux seen l ↔ (x ∈ l ∧ x ∉ seen) := by
  induction l with
  | nil =>
    intro seen x
    simp [dedupFirstAux]
  | cons a t ih =>
    intro seen x
    by_cases ha : seen.contains a
    · rw [dedupFirstAux, if_pos ha]
      rw [ih]
      constructor
      · rintro ⟨hx, hns⟩
        exact ⟨List.mem_cons_of_mem a hx, hns⟩
      · rintro ⟨hx, hns⟩
        rcases List.mem_cons.1 hx with h1 | h1
        · subst h1
          exact absurd (List.elem_iff.1 ha) hns
        · exact ⟨h1, hns⟩
    · have haf : seen.contains a = false := by
        cases hca : seen.contains a with
        | false => rfl
        | true => exact absurd hca ha
      rw [dedupFirstAux, if_neg ha]
      constructor
      · intro hx
        rcases List.mem_cons.1 hx with h1 | h1
        · subst h1
          exact ⟨List.mem_cons_self _ _, not_mem_of_contains_false haf⟩
        · rw [ih] at h1
          exact ⟨List.mem_cons_of_mem _ h1.1, fun hs => h1.2 (List.mem_cons_of_mem _ hs)⟩
      · rintro ⟨hx, hns⟩
        rcases List.mem_cons.1 hx with h1 | h1
        · subst h1
          exact List.mem_cons_self _ _
        · by_cases hxa : x = a
          · subst hxa
            exact List.mem_cons_self _ _
          · refine List.mem_cons_of_mem _ ((ih _ x).2 ⟨h1, ?_⟩)
            intro hs
            rcases List.mem_cons.1 hs with h2 | h2
            · exact hxa h2
            · exact hns h2

theorem dedupFirstAux_nodup (l : List String) : ∀ (seen : List String),
    (dedupFirstAux seen l).Nodup := by
  induction l with
  | nil => intro seen; exact List.Pairwise.nil
  | cons a t ih =>
    intro seen
    by_cases ha : seen.contains a
    · rw [dedupFirstAux, if_pos ha]
      exact ih seen
    · rw [dedupFirstAux, if_neg ha]
      refine List.pairwise_cons.2 ⟨fun y hy hay => ?_, ih (a :: seen)⟩
      have hmem := (mem_dedupFirstAux t (a :: seen) y).1 hy
      exact hmem.2 (hay ▸ List.mem_cons_self _ _)

theorem dedupFirst_nodup (l : List String) : (dedupFirst l).Nodup :=
  dedupFirstAux_nodup l []

/-- C2 (spec-modelled): detect_shift_titles returns the empty sequence
when no shift/position-title column resolves, and otherwise a sorted
(case-insensitively, on the lowercased form), duplicate-free sequence whose
members are exactly the trimmed non-empty non-missing values of that
column, with ties between equal lowercase keys kept in first-occurrence
order (each key class of the output equals that key class of the
first-occurrence deduplication of the column). -/
theorem claim_C2 (f : Frame) :
    (find_col f shiftPats = none → detect_shift_titles f = [])
    ∧ (∀ tc, find_col f shiftPats = some tc →
        List.Sorted titleLE (detect_shift_titles f)
        ∧ (detect_shift_titles f).Nodup
        ∧ (∀ t, t ∈ detect_shift_titles f ↔ t ∈ titleVals f tc)
        ∧ (∀ k, (detect_shift_titles f).filter (fun x => pyLower x == k) =
            (dedupFirst (titleVals f tc)).filter (fun x => pyLower x == k))) := by
  constructor
  · intro h
    unfold detect_shift_titles
    rw [h]
  · intro tc htc
    have hdet : detect_shift_titles f =
        List.insertionSort titleLE (dedupFirst (titleVals f tc)) := by
      unfold detect_shift_titles
      rw [htc]
    refine ⟨?_, ?_, ?_, ?_⟩
    · rw [hdet]
      exact List.sorted_insertionSort titleLE _
    · rw [hdet]
      exact (List.perm_insertionSort titleLE _).nodup_iff.2 (dedupFirst_nodup _)
    · intro t
      rw [hdet, (List.perm_insertionSort titleLE _).mem_iff]
      unfold dedupFirst
      rw [mem_dedupFirstAux]
      simp
    · intro k
      rw [hdet, filter_key_insertionSort]

/-- C4 counterexample: in c4raw the phone and distance patterns both
resolve to the single column "Phone Miles"; the cleaned phone "0155"
passes every phone filter, but step G's to_numeric coercion turns the cell
into the number 155, so the output's phone value is not a cleaned phone
string — and even its digit-normalized rendering begins with "1" — refuting
the claim as stated for this table. -/
theorem claim_C4_cex :
    promote_header_and_drop_first_three c4raw =
      .ok [("Name", [CVal.s "A"]), ("Phone Miles", [CVal.s "0155"])]
    ∧ find_col [("Name", [CVal.s "A"]), ("Phone Miles", [CVal.s "0155"])] phonePats =
        some "Phone Miles"
    ∧ find_col [("Name", [CVal.s "A"]), ("Phone Miles", [CVal.s "0155"])] milesPats =
        some "Phone Miles"
    ∧ clean_and_filter c4raw ⟨1000, 0⟩ [] false [] =
        .ok [("Name", [CVal.s "A"]), ("First Name", [CVal.s "A"]),
          ("Last Name", [CVal.s ""]), ("Phone Miles", [CVal.n ⟨155, 0⟩])]
    ∧ ¬ phoneOkCell (CVal.n ⟨155, 0⟩)
    ∧ startsWithOne (onlyDigits (cvalToStr (CVal.n ⟨155, 0⟩))) = true := by
  refine ⟨by decide, by decide, by decide, by decide, ?_, by decide⟩
  rintro ⟨v, hv, _⟩
  cases hv

/-- C5 counterexample: c5raw has two byte-identical "Bob" rows and two
byte-identical "Carol" rows.  Both Bob phones begin with 1, so the output
has zero Bob rows, not exactly one; the first Carol row is eliminated by
the phone filter before deduplication runs, so the surviving Carol row is
the second one (tag c2), not the first in original order — refuting both
the "exactly one" and the "first such row" parts of the claim as stated. -/
theorem claim_C5_cex :
    clean_and_filter c5raw ⟨50, 0⟩ [] false [] = .ok c5out
    ∧ ¬ (List.count (CVal.s "Bob") (colVals c5out "Name") = 1)
    ∧ CVal.s "c1" ∉ colVals c5out "Tag"
    ∧ CVal.s "c2" ∈ colVals c5out "Tag" := by
  refine ⟨by decide, by decide, by decide, by decide⟩

/-- C1 witness: on sampleRaw with allowed titles ["RN"], the surviving
title value "RN" is in the allowed set up to trim and case. -/
theorem claim_C1_witness :
    pyLower (pyStrip (cvalToStr (CVal.s "RN"))) ∈ (["RN"].map pyLower) :=
  claim_C1.2.2 sampleRaw ⟨50, 0⟩ ["Active"] true ["RN"] sampleDf0 sampleOutRN
    "Shift Position Title" (by decide) (by decide) (by decide) (by decide)
    (CVal.s "RN") (by decide)

/-- C2 witness: the detector output of a concrete title column is sorted
in the case-insensitive order. -/
theorem claim_C2_witness :
    List.Sorted titleLE (detect_shift_titles
      [("Shift Position Title",
        [CVal.s "RN", CVal.s "rn", CVal.s "LPN", CVal.s "", CVal.s " "])]) :=
  ((claim_C2 [("Shift Position Title",
      [CVal.s "RN", CVal.s "rn", CVal.s "LPN", CVal.s "", CVal.s " "])]).2
    "Shift Position Title" (by decide)).1

/-- C3 witness: sampleRaw has ten rows and normalizes to a six-row table. -/
theorem claim_C3_witness :
    ∃ f, promote_header_and_drop_first_three sampleRaw = .ok f ∧
      nrows f = sampleRaw.length - 4 :=
  (claim_C3 sampleRaw).1 (by decide)
    (by unfold Rect; decide) (by decide)

/-- C4 witness: the surviving phone value of the sampleRaw run satisfies
the phone invariant. -/
theorem claim_C4_witness : phoneOkCell (CVal.s "5552231000") :=
  claim_C4 sampleRaw ⟨50, 0⟩ ["Active"] true ["RN"] sampleDf0 sampleOutRN "Phone"
    (by decide) (by decide)
    (by
      intro mc h
      have hm : find_col sampleDf0 milesPats = some "Miles From Location" := by decide
      rw [hm] at h
      obtain rfl := Option.some.inj h
      decide)
    (by decide) (CVal.s "5552231000") (by decide)

/-- C5 witness: the duplicated name "Smith, John" appears at most once in
the cleaned sampleRaw output. -/
theorem claim_C5_witness :
    List.count (CVal.s "Smith, John") (colVals sampleOutRN "Employee Name") ≤ 1 :=
  claim_C5.1 sampleRaw ⟨50, 0⟩ ["Active"] true ["RN"] sampleDf0 sampleOutRN
    "Employee Name" (CVal.s "Smith, John") (by decide) (by decide) (by decide)
    (fun d h => CVal.noConfusion h)

/-- C7 witness: the surviving distance cell of the sampleRaw run is a
parsed number within the 50-mile bound. -/
theorem claim_C7_witness :
    ∃ d, CVal.n (⟨125, 1⟩ : Dec) = CVal.n d ∧ Dec.val d ≤ Dec.val ⟨50, 0⟩ :=
  claim_C7.1 sampleRaw ⟨50, 0⟩ ["Active"] true ["RN"] sampleDf0 sampleOutRN
    "Miles From Location" (by decide) (by decide) (by decide)
    (CVal.n ⟨125, 1⟩) (by decide)

/-- C9 witness: a whitespace-only name splits into two empty strings. -/
theorem claim_C9_witness :
    _split_name_to_first_last (CVal.s "  ") = (CVal.s "", CVal.s "") :=
  claim_C9.2.1 "  " (by decide)

/-- C10 witness: c10raw's single data row is phone-filtered away and the
pipeline raises the KeyError instead of returning an empty table. -/
theorem claim_C10_witness :
    clean_and_filter c10raw ⟨50, 0⟩ [] false [] = .error (.keyError "First Name") :=
  claim_C10 c10raw ⟨50, 0⟩ [] false [] c10df0 c10f1 "Name"
    (by decide) (by decide) (by decide) (by decide)
